import Mathlib

/-!
Verification development for the healthcare data ingestion pipeline.

The repository ingests patient-visit records, stages them as CSV in object
storage, and asynchronously reconciles them into a Patient/Person/Visit
store, upserting on natural keys (MRN, visit account number).

Shallow embedding layout:
* `HDIP.Store` models the relational store of `src/app/models/models.py` as
  key-indexed finite maps: `patients` keyed by MRN, `persons` keyed by the
  shared Patient/Person surrogate id, `visits` keyed by visit account
  number.  `nextPatientId`/`nextVisitId` model the autoincrement columns.
* The `PatientService` operations of `src/app/services/patient_service.py`
  become pure functions over `Store`.
* The reconciliation loop of `process_csv_workflow` in
  `src/worker/celery_app.py` becomes `HDIP.stepRow` / `HDIP.runRows`.
  The pandas date parser is taken as a parameter `parse`; a per-chunk
  `db.commit()` is a no-op in this failure-free model, so chunked
  iteration coincides with the flat fold over all rows (the global
  `processed_count` is threaded across chunks in the source as well).
* Object storage (`src/app/services/s3_service.py`) and the worker's
  local download directory become the two blob maps of `HDIP.Env`.
-/

namespace HDIP

/-- Calendar date (`datetime.date`): year, month, day. -/
structure Date where
  y : Nat
  m : Nat
  d : Nat
deriving DecidableEq, Repr

/-- A row of the `patients` table (`models.Patient`): surrogate id and MRN.
The `created_at` server timestamp is not modelled.  In `Store` the row is
stored under its MRN key. -/
structure PatientT where
  id : Nat
  mrn : String
deriving DecidableEq, Repr

/-- A row of the `persons` table (`models.Person`): demographics.  Its
primary key equals the owning patient's id and is the `Store.persons` key. -/
structure PersonT where
  first_name : String
  last_name : String
  birth_date : Date
deriving DecidableEq, Repr

/-- A row of the `visits` table (`models.Visit`).  The unique
`visit_account_number` is the `Store.visits` key; the row itself carries the
surrogate id, owning `patient_id`, date and reason. -/
structure VisitT where
  id : Nat
  patient_id : Nat
  visit_date : Date
  reason : String
deriving DecidableEq, Repr

/-- The relational store: three key-indexed tables plus the autoincrement
counters for the two surrogate-id sequences. -/
@[ext] structure Store where
  patients : String → Option PatientT
  persons : Nat → Option PersonT
  visits : String → Option VisitT
  nextPatientId : Nat
  nextVisitId : Nat

/-- The dynamically-typed Python return value of the update operations:
`update_person` falls off the end of its body (returns `None`), while
`update_visit` returns the visit object. -/
inductive PyRet where
  | pyNone : PyRet
  | bool (b : Bool) : PyRet
  | visit (v : VisitT) : PyRet
deriving DecidableEq, Repr

/-- `PatientService.get_patient_by_mrn`: exact natural-key lookup. -/
def get_patient_by_mrn (db : Store) (mrn : String) : Option PatientT :=
  db.patients mrn

/-- `PatientService.get_visit_by_account_number`: exact natural-key lookup. -/
def get_visit_by_account_number (db : Store) (acct : String) : Option VisitT :=
  db.visits acct

/-- `PatientService.create_patient`: inserts a Patient, flushes to obtain the
autoincrement id, inserts the Person under the same id, and commits both in
the one transaction.  A duplicate MRN violates the table's unique constraint
when the INSERT is flushed, so the transaction fails and nothing persists;
this surfaces as the `Except.error` branch. -/
def create_patient (db : Store) (mrn first_name last_name : String)
    (birth_date : Date) : Except String (Store × PatientT) :=
  if (db.patients mrn).isSome then
    .error "IntegrityError: duplicate key value violates unique constraint patients_mrn_key"
  else
    let pid := db.nextPatientId
    let patient : PatientT := ⟨pid, mrn⟩
    .ok ({ db with
            patients := fun m => if m = mrn then some patient else db.patients m,
            persons := fun i =>
              if i = pid then some ⟨first_name, last_name, birth_date⟩ else db.persons i,
            nextPatientId := pid + 1 }, patient)

/-- `PatientService.update_person`: field-wise compare-and-set on the
`patient.person` row.  If the patient has no Person row, the attribute
access `person.first_name` raises (`None` has no attribute), modelled by the
`none` result.  The session is committed only when some field changed; the
function body has no `return`, so the Python return value is `None`
(`PyRet.pyNone`). -/
def update_person (db : Store) (patient : PatientT) (first_name last_name : String)
    (birth_date : Date) : Option (Store × Bool × PyRet) :=
  match db.persons patient.id with
  | none => none
  | some person =>
    let u1 : Bool := decide (person.first_name ≠ first_name)
    let p1 := if u1 then { person with first_name := first_name } else person
    let u2 : Bool := decide (p1.last_name ≠ last_name)
    let p2 := if u2 then { p1 with last_name := last_name } else p1
    let u3 : Bool := decide (p2.birth_date ≠ birth_date)
    let p3 := if u3 then { p2 with birth_date := birth_date } else p2
    let updated := u1 || u2 || u3
    let db' :=
      if updated then
        { db with persons := fun i => if i = patient.id then some p3 else db.persons i }
      else db
    some (db', updated, PyRet.pyNone)

/-- `PatientService.create_visit`: inserts a Visit under the given patient
and commits.  A duplicate account number violates the unique constraint at
commit, surfacing as the `Except.error` branch with nothing persisted. -/
def create_visit (db : Store) (patient_id : Nat) (acct : String)
    (visit_date : Date) (reason : String) : Except String (Store × VisitT) :=
  if (db.visits acct).isSome then
    .error "IntegrityError: duplicate key value violates unique constraint visits_visit_account_number_key"
  else
    let visit : VisitT := ⟨db.nextVisitId, patient_id, visit_date, reason⟩
    .ok ({ db with
            visits := fun a => if a = acct then some visit else db.visits a,
            nextVisitId := db.nextVisitId + 1 }, visit)

/-- `PatientService.update_visit`: field-wise compare-and-set on the visit
row identified by its account number `acct` (the ORM object's primary key
row; `acct` is the `Store.visits` key of the row the object came from).
Commits only on change and returns the visit object (`PyRet.visit`). -/
def update_visit (db : Store) (acct : String) (visit : VisitT)
    (visit_date : Date) (reason : String) : Store × Bool × PyRet :=
  let u1 : Bool := decide (visit.visit_date ≠ visit_date)
  let v1 := if u1 then { visit with visit_date := visit_date } else visit
  let u2 : Bool := decide (v1.reason ≠ reason)
  let v2 := if u2 then { v1 with reason := reason } else v1
  let updated := u1 || u2
  let db' :=
    if updated then
      { db with visits := fun a => if a = acct then some v2 else db.visits a }
    else db
  (db', updated, PyRet.visit v2)

/-- One staged CSV row as consumed by the worker: all seven columns are
strings; the two dates are parsed by the workflow. -/
structure Row where
  mrn : String
  first_name : String
  last_name : String
  birth_date : String
  visit_account_number : String
  visit_date : String
  reason : String
deriving DecidableEq, Repr

/-- Mutable state of one `process_csv_workflow` invocation: the store plus
the four tallies, the error list and the global `processed_count`. -/
structure WfState where
  db : Store
  patientsCreated : Nat
  patientsUpdated : Nat
  visitsCreated : Nat
  visitsUpdated : Nat
  errors : List String
  processedCount : Nat

/-- Initial per-invocation state over a given store. -/
def initState (db : Store) : WfState :=
  { db := db, patientsCreated := 0, patientsUpdated := 0,
    visitsCreated := 0, visitsUpdated := 0, errors := [], processedCount := 0 }

/-- The row-level error message of `process_csv_workflow`:
`f"Error processing record {processed_count} (MRN={row.get('mrn', 'unknown')}): {str(e)}"`.
Staged rows always carry the `mrn` column, so the `'unknown'` default of
`row.get` is never taken.  `msg` stands for `str(e)`. -/
def errMsg (n : Nat) (mrn msg : String) : String :=
  "Error processing record " ++ toString n ++ " (MRN=" ++ mrn ++ "): " ++ msg

/-- Abstraction of `str(e)` for a pandas date-parse failure. -/
def dateErrText : String := "Unknown datetime string format"

/-- Abstraction of `str(e)` for the `AttributeError` raised when an existing
patient row has no Person row (`patient.person` is `None`). -/
def noPersonText : String := "AttributeError: NoneType object has no attribute first_name"

/-- The visit half of one loop iteration: look the visit up by account
number and update it, or create it under the patient resolved by the
patient half.  A store conflict raised by `create_visit` is caught by the
surrounding row-level `except` and recorded. -/
def visitPhase (st : WfState) (pat : PatientT) (row : Row) (vd : Date) : WfState :=
  match get_visit_by_account_number st.db row.visit_account_number with
  | some visit =>
    let r := update_visit st.db row.visit_account_number visit vd row.reason
    { st with db := r.1, visitsUpdated := st.visitsUpdated + 1 }
  | none =>
    match create_visit st.db pat.id row.visit_account_number vd row.reason with
    | .ok (db2, _) => { st with db := db2, visitsCreated := st.visitsCreated + 1 }
    | .error e =>
      { st with errors := st.errors ++ [errMsg st.processedCount row.mrn e] }

/-- One iteration of the per-row loop of `process_csv_workflow`
(`src/worker/celery_app.py`): bump `processed_count`, parse both dates, then
branch create-vs-update for the patient and for the visit.  Any row-level
failure (unparseable date, missing Person row, store conflict) is caught,
appended to the error list and the loop continues.  The self.update_state
progress call is pure telemetry and is not modelled. -/
def stepRow (parse : String → Option Date) (st : WfState) (row : Row) : WfState :=
  let n := st.processedCount + 1
  match parse row.birth_date, parse row.visit_date with
  | some bd, some vd =>
    (match get_patient_by_mrn st.db row.mrn with
     | some patient =>
       match update_person st.db patient row.first_name row.last_name bd with
       | none =>
         { st with processedCount := n,
                   errors := st.errors ++ [errMsg n row.mrn noPersonText] }
       | some (db1, _, _) =>
         visitPhase { st with db := db1, patientsUpdated := st.patientsUpdated + 1,
                              processedCount := n } patient row vd
     | none =>
       match create_patient st.db row.mrn row.first_name row.last_name bd with
       | .error e =>
         { st with processedCount := n,
                   errors := st.errors ++ [errMsg n row.mrn e] }
       | .ok (db1, patient) =>
         visitPhase { st with db := db1, patientsCreated := st.patientsCreated + 1,
                              processedCount := n } patient row vd)
  | _, _ =>
    { st with processedCount := n,
              errors := st.errors ++ [errMsg n row.mrn dateErrText] }

/-- The whole per-row loop: rows are consumed in source order.  The chunked
`pd.read_csv(..., chunksize=500)` iteration with a `db.commit()` after each
chunk visits exactly the same rows in the same order with the same global
`processed_count`, and a commit has no further effect in this model, so the
loop is the flat fold. -/
def runRows (parse : String → Option Date) (st : WfState) (rows : List Row) : WfState :=
  rows.foldl (stepRow parse) st

/-- The worker's world outside the relational store: the S3 bucket and the
worker's local upload directory, each a name-indexed blob map.  A staged
blob is represented by its parsed row list (CSV decoding is a trivial
adapter). -/
@[ext] structure Env where
  s3 : String → Option (List Row)
  localFiles : String → Option (List Row)

/-- The summary dictionary returned on the `completed` path. -/
structure WfSummary where
  csv_filename : String
  total_records : Nat
  processed_records : Nat
  patients_created : Nat
  patients_updated : Nat
  visits_created : Nat
  visits_updated : Nat
  errors : List String
  error_count : Nat
deriving DecidableEq, Repr

/-- Terminal result of one workflow invocation: a `status` string plus the
summary (on completion) or the error text (on workflow-fatal failure). -/
structure WfResult where
  status : String
  summary : Option WfSummary
  error : Option String
deriving DecidableEq, Repr

/-- `process_csv_workflow` end to end: download the staged blob into the
local upload directory (failure is workflow-fatal: `status: "failed"`, no
rows processed), count the records, run the per-row loop, then best-effort
remove the local temporary file (`removeOk` says whether `os.remove`
succeeded; its failure is only logged).  Returns the updated environment,
the store, and the terminal result. -/
def process_csv_workflow (parse : String → Option Date) (env : Env) (db : Store)
    (csv_filename : String) (removeOk : Bool) : Env × Store × WfResult :=
  match env.s3 csv_filename with
  | none =>
    (env, db,
      { status := "failed", summary := none,
        error := some ("Workflow failed: Failed to download " ++ csv_filename ++ " from S3") })
  | some rows =>
    let localName := "downloaded_" ++ csv_filename
    let env1 : Env :=
      { env with localFiles := fun n => if n = localName then some rows else env.localFiles n }
    let total := rows.length
    let st := runRows parse (initState db) rows
    let env2 : Env :=
      if removeOk then
        { env1 with localFiles := fun n => if n = localName then none else env1.localFiles n }
      else env1
    (env2, st.db,
      { status := "completed",
        summary := some
          { csv_filename := csv_filename, total_records := total,
            processed_records := st.processedCount,
            patients_created := st.patientsCreated,
            patients_updated := st.patientsUpdated,
            visits_created := st.visitsCreated,
            visits_updated := st.visitsUpdated,
            errors := st.errors, error_count := st.errors.length },
        error := none })

/-- Both dates of the worker row parse. -/
def parsesB (parse : String → Option Date) (r : Row) : Bool :=
  (parse r.birth_date).isSome && (parse r.visit_date).isSome

/-- Store well-formedness: every patient row has its Person row (the two are
created together and never deleted). -/
def WF (db : Store) : Prop :=
  ∀ m p, db.patients m = some p → (db.persons p.id).isSome

/-- The row writes the person row at final id `i`: both dates parse and the
row's MRN resolves to `i` in the (final) store `D`. -/
def touches (parse : String → Option Date) (D : Store) (i : Nat) (r : Row) : Bool :=
  parsesB parse r && decide ((D.patients r.mrn).map PatientT.id = some i)

/-- The row writes the visit row at account number `a`: both dates parse and
the row carries `a`. -/
def touchesA (parse : String → Option Date) (a : String) (r : Row) : Bool :=
  parsesB parse r && decide (r.visit_account_number = a)

/-- One row of the `Patient JOIN Person` query backing
`PatientService.get_patients_paginated`: the store enumerates it in
surrogate-id order (autoincrement primary key). -/
structure PatientRow where
  id : Nat
  mrn : String
  first_name : String
  last_name : String
deriving DecidableEq, Repr

/-- Char-list prefix test. -/
def hasPrefixL : List Char → List Char → Bool
  | [], _ => true
  | _ :: _, [] => false
  | a :: as, b :: bs => a == b && hasPrefixL as bs

/-- Char-list contiguous-substring test. -/
def hasInfixL : List Char → List Char → Bool
  | p, [] => hasPrefixL p []
  | p, c :: s => hasPrefixL p (c :: s) || hasInfixL p s

/-- Lower-case a character list. -/
def toLowerL (l : List Char) : List Char :=
  l.map Char.toLower

/-- SQL LIKE pattern matching over character lists (PostgreSQL semantics):
the pattern must cover the whole text, `%` matches any sequence (either
zero characters, or one character of the text and the same pattern on the
rest), `_` matches exactly one character, and a backslash (the default
escape character) makes the following pattern character literal.  A pattern
ending in a bare backslash is an error in PostgreSQL and matches nothing
here; the patterns built by `ilike` below always end in `%`, so a trailing
backslash typed by the user instead escapes that appended `%`. -/
def likeMatch : List Char → List Char → Bool
  | [], s => s.isEmpty
  | c :: p, s =>
    if c = '%' then
      likeMatch p s || (if s.isEmpty then false else likeMatch (c :: p) s.tail)
    else if c = '_' then
      if s.isEmpty then false else likeMatch p s.tail
    else if c = '\\' then
      if p.isEmpty then false
      else if s.isEmpty then false
      else (s.headD c == p.headD c) && likeMatch p.tail s.tail
    else
      if s.isEmpty then false else (s.headD c == c) && likeMatch p s.tail
termination_by p s => p.length + s.length
decreasing_by
all_goals simp_wf
all_goals rename_i h
all_goals simp [List.isEmpty_iff, List.length_tail] at *
all_goals cases ‹List Char› <;> simp_all <;> omega

/-- `column.ilike(f"%{pat}%")`: the filter string is interpolated unescaped
into a LIKE pattern wrapped in `%…%` and matched case-insensitively, so `%`
and `_` inside the filter act as LIKE wildcards and `\` as the escape
character.  For a filter without these metacharacters this is a
case-insensitive substring match. -/
def ilike (field pat : String) : Bool :=
  likeMatch (toLowerL ('%' :: (pat.data ++ ['%']))) (toLowerL field.data)

/-- Python truthiness of an optional string filter (`if mrn:`): absent and
empty filters are not applied. -/
def truthy : Option String → Bool
  | none => false
  | some s => !s.isEmpty

/-- `PatientService.get_patients_paginated`: apply the three optional
case-insensitive substring filters in sequence, count the filtered set, then
page with `offset = (page - 1) * page_size` and `limit = page_size`. -/
def get_patients_paginated (tbl : List PatientRow) (page page_size : Nat)
    (mrn first_name last_name : Option String) : List PatientRow × Nat :=
  let q := tbl
  let q := if truthy mrn then q.filter (fun p => ilike p.mrn (mrn.getD "")) else q
  let q := if truthy first_name then
    q.filter (fun p => ilike p.first_name (first_name.getD "")) else q
  let q := if truthy last_name then
    q.filter (fun p => ilike p.last_name (last_name.getD "")) else q
  let total := q.length
  let offset := (page - 1) * page_size
  ((q.drop offset).take page_size, total)

/-- Written from the spec's words, with the filter semantics taken from the
source's `ilike` pattern: a provided filter must match its column (an
absent filter always matches). -/
def filterMatch (f : Option String) (s : String) : Bool :=
  match f with
  | none => true
  | some pat => ilike s pat

/-- Written from the spec's words: the three filters combined with AND. -/
def specKeep (mrn first_name last_name : Option String) (p : PatientRow) : Bool :=
  filterMatch mrn p.mrn && filterMatch first_name p.first_name
    && filterMatch last_name p.last_name

/-- A one-patient table whose MRN contains no `%`, for exhibiting wildcard
behaviour of the MRN filter. -/
def tblW : List PatientRow :=
  [⟨1, "abc", "", ""⟩]

/-- Decimal digit character. -/
def dChar : Nat → Char
  | 0 => '0'
  | 1 => '1'
  | 2 => '2'
  | 3 => '3'
  | 4 => '4'
  | 5 => '5'
  | 6 => '6'
  | 7 => '7'
  | 8 => '8'
  | _ => '9'

/-- `%04d` for the year of a valid Python `date` (years 1..9999). -/
def pad4 (n : Nat) : List Char :=
  [dChar (n / 1000 % 10), dChar (n / 100 % 10), dChar (n / 10 % 10), dChar (n % 10)]

/-- `%02d` for month and day. -/
def pad2 (n : Nat) : List Char :=
  [dChar (n / 10 % 10), dChar (n % 10)]

/-- `datetime.date.isoformat`: `YYYY-MM-DD`, zero padded. -/
def Date.isoformat (d : Date) : String :=
  String.mk (pad4 d.y ++ '-' :: pad2 d.m ++ '-' :: pad2 d.d)

/-- One validated record of the ingest payload (`schemas.VisitRecord`):
pydantic has already parsed the two dates. -/
structure VisitRecord where
  mrn : String
  first_name : String
  last_name : String
  birth_date : Date
  visit_account_number : String
  visit_date : Date
  reason : String
deriving DecidableEq, Repr

/-- `csv` module QUOTE_MINIMAL: a field is quoted when it contains the
delimiter, the quote character, or a line-terminator character. -/
def csvNeedsQuote (s : String) : Bool :=
  s.data.any (fun c => c == ',' || c == '"' || c == '\r' || c == '\n')

/-- Double every quote character inside a quoted field. -/
def escQ : List Char → List Char
  | [] => []
  | c :: cs => if c = '"' then '"' :: '"' :: escQ cs else c :: escQ cs

/-- Serialize one CSV field with minimal quoting. -/
def csvQuote (s : String) : String :=
  if csvNeedsQuote s then String.mk ('"' :: (escQ s.data ++ ['"'])) else s

/-- `",".join`. -/
def joinComma : List String → String
  | [] => ""
  | [s] => s
  | s :: t :: rest => s ++ "," ++ joinComma (t :: rest)

/-- One physical CSV line for a list of fields. -/
def csvRowLine (fields : List String) : String :=
  joinComma (fields.map csvQuote)

/-- `CSVService.CSV_HEADERS`: the fixed column order of the staged blob. -/
def CSV_HEADERS : List String :=
  ["mrn", "first_name", "last_name", "birth_date",
   "visit_account_number", "visit_date", "reason"]

/-- The seven field values written for one record, in header order, with
both dates serialized through `isoformat`. -/
def recordFields (r : VisitRecord) : List String :=
  [r.mrn, r.first_name, r.last_name, r.birth_date.isoformat,
   r.visit_account_number, r.visit_date.isoformat, r.reason]

/-- The data rows as written by successive `writer.writerow` calls; the csv
module's default line terminator is CRLF. -/
def csvBody : List VisitRecord → String
  | [] => ""
  | r :: rest => csvRowLine (recordFields r) ++ "\r\n" ++ csvBody rest

/-- `CSVService.create_csv_from_records`: the staged file's content — the
header line followed by one line per record in input order. -/
def create_csv_from_records (records : List VisitRecord) : String :=
  csvRowLine CSV_HEADERS ++ "\r\n" ++ csvBody records

/-- Split a character stream at CRLF line terminators (the reader's view of
the staged file). -/
def splitCRLF : List Char → List (List Char)
  | [] => [[]]
  | [c] => [[c]]
  | c :: c2 :: rest =>
    if c = '\r' ∧ c2 = '\n' then [] :: splitCRLF rest
    else
      match splitCRLF (c2 :: rest) with
      | [] => [[c]]
      | l :: ls => (c :: l) :: ls

/-- A store with no rows at all, as after `init_db` on a fresh database. -/
def emptyStore : Store :=
  { patients := fun _ => none, persons := fun _ => none, visits := fun _ => none,
    nextPatientId := 1, nextVisitId := 1 }

/-- A small concrete date parser used to instantiate the workflow theorems:
it accepts exactly the two ISO strings of the demo row. -/
def parseTable : String → Option Date := fun s =>
  if s = "1980-01-01" then some ⟨1980, 1, 1⟩
  else if s = "2024-03-01" then some ⟨2024, 3, 1⟩
  else none

/-- The spec's running example row. -/
def rowJane : Row :=
  { mrn := "M1", first_name := "Jane", last_name := "Doe", birth_date := "1980-01-01",
    visit_account_number := "V1", visit_date := "2024-03-01", reason := "checkup" }

/-- A row whose birth date cannot be parsed. -/
def rowBad : Row :=
  { mrn := "M2", first_name := "Bo", last_name := "Gus", birth_date := "not-a-date",
    visit_account_number := "V2", visit_date := "2024-03-01", reason := "intake" }

/-- A demo environment holding one staged blob. -/
def demoEnv : Env :=
  { s3 := fun n => if n = "b.csv" then some [rowJane] else none,
    localFiles := fun _ => none }

/-- A demo store holding one patient with its person row. -/
def demoStore : Store :=
  { patients := fun m => if m = "M1" then some ⟨1, "M1"⟩ else none,
    persons := fun i => if i = 1 then some ⟨"Jane", "Doe", ⟨1980, 1, 1⟩⟩ else none,
    visits := fun a => if a = "V1" then some ⟨1, 1, ⟨2024, 3, 1⟩, "checkup"⟩ else none,
    nextPatientId := 2, nextVisitId := 2 }

/-- Twenty-five unfiltered patients, ids 1..25, in id order. -/
def tbl25 : List PatientRow :=
  (List.range 25).map (fun i => ⟨i + 1, "", "", ""⟩)

/-- A one-record ingest payload. -/
def recsDemo : List VisitRecord :=
  [{ mrn := "M1", first_name := "Jane", last_name := "Doe", birth_date := ⟨1980, 1, 1⟩,
     visit_account_number := "V1", visit_date := ⟨2024, 3, 1⟩, reason := "checkup" }]

/-- Full behaviour of `update_person` when the Person row exists: the
result state either is the input store (no field changed) or has exactly the
incoming demographics written at the patient's id; the `updated` flag is the
field-wise inequality; the Python return value is `None`. -/
theorem update_person_shape (db : Store) (patient : PatientT) (fn ln : String) (bd : Date)
    (person : PersonT) (h : db.persons patient.id = some person) :
    update_person db patient fn ln bd =
      some ((if person = ⟨fn, ln, bd⟩ then db
             else { db with persons := fun i =>
                      if i = patient.id then some ⟨fn, ln, bd⟩ else db.persons i }),
            decide (person ≠ ⟨fn, ln, bd⟩), PyRet.pyNone) := by
  unfold update_person
  rw [h]
  rcases person with ⟨pf, pl, pb⟩
  by_cases h1 : pf = fn <;> by_cases h2 : pl = ln <;> by_cases h3 : pb = bd <;>
    simp_all [PersonT.mk.injEq]

/-- Full behaviour of `update_visit`: the result state either is the input
store (no field changed) or has the visit row at key `acct` overwritten with
the same id and `patient_id` and the incoming date and reason; the Python
return value is the (possibly mutated) visit object. -/
theorem update_visit_shape (db : Store) (acct : String) (visit : VisitT)
    (vd : Date) (rs : String) :
    update_visit db acct visit vd rs =
      ((if visit.visit_date = vd ∧ visit.reason = rs then db
        else { db with visits := fun a =>
                 if a = acct then some ⟨visit.id, visit.patient_id, vd, rs⟩ else db.visits a }),
       decide (¬(visit.visit_date = vd ∧ visit.reason = rs)),
       PyRet.visit ⟨visit.id, visit.patient_id, vd, rs⟩) := by
  unfold update_visit
  rcases visit with ⟨vid, vpid, vvd, vrs⟩
  by_cases h1 : vvd = vd <;> by_cases h2 : vrs = rs <;>
    simp_all [VisitT.mk.injEq]

/-- `update_person` on a patient with no Person row raises. -/
theorem update_person_none (db : Store) (patient : PatientT) (fn ln : String) (bd : Date)
    (h : db.persons patient.id = none) :
    update_person db patient fn ln bd = none := by
  unfold update_person
  rw [h]

/-- `create_patient` on a fresh MRN. -/
theorem create_patient_of_none (db : Store) (mrn fn ln : String) (bd : Date)
    (h : db.patients mrn = none) :
    create_patient db mrn fn ln bd =
      .ok ({ db with
              patients := fun m => if m = mrn then some ⟨db.nextPatientId, mrn⟩ else db.patients m,
              persons := fun i =>
                if i = db.nextPatientId then some ⟨fn, ln, bd⟩ else db.persons i,
              nextPatientId := db.nextPatientId + 1 }, ⟨db.nextPatientId, mrn⟩) := by
  unfold create_patient
  simp [h]

/-- `create_visit` on a fresh account number. -/
theorem create_visit_of_none (db : Store) (pid : Nat) (acct : String) (vd : Date) (rs : String)
    (h : db.visits acct = none) :
    create_visit db pid acct vd rs =
      .ok ({ db with
              visits := fun a => if a = acct then some ⟨db.nextVisitId, pid, vd, rs⟩ else db.visits a,
              nextVisitId := db.nextVisitId + 1 }, ⟨db.nextVisitId, pid, vd, rs⟩) := by
  unfold create_visit
  simp [h]

/-- A row whose dates do not both parse only logs an error and bumps the
counter. -/
theorem stepRow_parse_fail (parse : String → Option Date) (st : WfState) (row : Row)
    (h : parse row.birth_date = none ∨ parse row.visit_date = none) :
    stepRow parse st row =
      { st with processedCount := st.processedCount + 1,
                errors := st.errors ++ [errMsg (st.processedCount + 1) row.mrn dateErrText] } := by
  unfold stepRow
  rcases h with h | h
  · rw [h]
  · rw [h]
    rcases parse row.birth_date with _ | bd <;> rfl

/-- A row whose MRN exists but whose patient has no Person row fails at
`patient.person` access and only logs an error. -/
theorem stepRow_no_person (parse : String → Option Date) (st : WfState) (row : Row)
    (bd vd : Date) (patient : PatientT)
    (hb : parse row.birth_date = some bd) (hv : parse row.visit_date = some vd)
    (hp : st.db.patients row.mrn = some patient)
    (hq : st.db.persons patient.id = none) :
    stepRow parse st row =
      { st with processedCount := st.processedCount + 1,
                errors := st.errors ++ [errMsg (st.processedCount + 1) row.mrn noPersonText] } := by
  unfold stepRow
  rw [hb, hv]
  simp only [get_patient_by_mrn, hp, update_person_none st.db patient _ _ _ hq]

/-- A row whose MRN exists and whose patient has a Person row runs the
compare-and-set update, counts one patient update, and proceeds to the visit
half. -/
theorem stepRow_found (parse : String → Option Date) (st : WfState) (row : Row)
    (bd vd : Date) (patient : PatientT) (person : PersonT)
    (hb : parse row.birth_date = some bd) (hv : parse row.visit_date = some vd)
    (hp : st.db.patients row.mrn = some patient)
    (hq : st.db.persons patient.id = some person) :
    stepRow parse st row =
      visitPhase
        { st with
            db := (if person = ⟨row.first_name, row.last_name, bd⟩ then st.db
                   else { st.db with persons := fun i =>
                            if i = patient.id then some ⟨row.first_name, row.last_name, bd⟩
                            else st.db.persons i }),
            patientsUpdated := st.patientsUpdated + 1,
            processedCount := st.processedCount + 1 } patient row vd := by
  unfold stepRow
  rw [hb, hv]
  simp only [get_patient_by_mrn, hp,
    update_person_shape st.db patient row.first_name row.last_name bd person hq]

/-- A row with a fresh MRN creates the patient and person, counts one
patient creation, and proceeds to the visit half under the new patient. -/
theorem stepRow_fresh (parse : String → Option Date) (st : WfState) (row : Row)
    (bd vd : Date)
    (hb : parse row.birth_date = some bd) (hv : parse row.visit_date = some vd)
    (hp : st.db.patients row.mrn = none) :
    stepRow parse st row =
      visitPhase
        { st with
            db := { st.db with
                patients := fun m =>
                  if m = row.mrn then some ⟨st.db.nextPatientId, row.mrn⟩ else st.db.patients m,
                persons := fun i =>
                  if i = st.db.nextPatientId then
                    some ⟨row.first_name, row.last_name, bd⟩
                  else st.db.persons i,
                nextPatientId := st.db.nextPatientId + 1 },
            patientsCreated := st.patientsCreated + 1,
            processedCount := st.processedCount + 1 }
        ⟨st.db.nextPatientId, row.mrn⟩ row vd := by
  unfold stepRow
  rw [hb, hv]
  simp only [get_patient_by_mrn, hp,
    create_patient_of_none st.db row.mrn row.first_name row.last_name bd hp]

/-- Visit half on an existing account number: compare-and-set update,
keeping the visit's id and owning patient. -/
theorem visitPhase_found (st : WfState) (pat : PatientT) (row : Row) (vd : Date)
    (visit : VisitT) (h : st.db.visits row.visit_account_number = some visit) :
    visitPhase st pat row vd =
      { st with
          db := (if visit.visit_date = vd ∧ visit.reason = row.reason then st.db
                 else { st.db with visits := fun a =>
                          (if a = row.visit_account_number then
                             some ⟨visit.id, visit.patient_id, vd, row.reason⟩
                           else st.db.visits a) }),
          visitsUpdated := st.visitsUpdated + 1 } := by
  unfold visitPhase
  simp only [get_visit_by_account_number, h,
    update_visit_shape st.db row.visit_account_number visit vd row.reason]

/-- Visit half on a fresh account number: create the visit under the
resolved patient. -/
theorem visitPhase_fresh (st : WfState) (pat : PatientT) (row : Row) (vd : Date)
    (h : st.db.visits row.visit_account_number = none) :
    visitPhase st pat row vd =
      { st with
          db := { st.db with
              visits := fun a =>
                if a = row.visit_account_number then
                  some ⟨st.db.nextVisitId, pat.id, vd, row.reason⟩
                else st.db.visits a,
              nextVisitId := st.db.nextVisitId + 1 },
          visitsCreated := st.visitsCreated + 1 } := by
  unfold visitPhase
  simp only [get_visit_by_account_number, h,
    create_visit_of_none st.db pat.id row.visit_account_number vd row.reason h]

/-- The visit half never touches the patient or person tables, the patient
counters, the row counter or the error list (a visit-create conflict cannot
arise here because creation is guarded by the lookup). -/
theorem visitPhase_frame (st : WfState) (pat : PatientT) (row : Row) (vd : Date) :
    (visitPhase st pat row vd).db.patients = st.db.patients ∧
    (visitPhase st pat row vd).db.persons = st.db.persons ∧
    (visitPhase st pat row vd).db.nextPatientId = st.db.nextPatientId ∧
    (visitPhase st pat row vd).patientsCreated = st.patientsCreated ∧
    (visitPhase st pat row vd).patientsUpdated = st.patientsUpdated ∧
    (visitPhase st pat row vd).processedCount = st.processedCount ∧
    (visitPhase st pat row vd).errors = st.errors := by
  rcases h : st.db.visits row.visit_account_number with _ | visit
  · rw [visitPhase_fresh st pat row vd h]
    exact ⟨rfl, rfl, rfl, rfl, rfl, rfl, rfl⟩
  · rw [visitPhase_found st pat row vd visit h]
    refine ⟨?_, ?_, ?_, rfl, rfl, rfl, rfl⟩ <;> (split <;> rfl)

/-- A patient row, once present, survives any later step with the same
content: MRNs and surrogate ids are immutable. -/
theorem stepRow_patients_stable (parse : String → Option Date) (st : WfState) (row : Row)
    (m : String) (p : PatientT) (h : st.db.patients m = some p) :
    (stepRow parse st row).db.patients m = some p := by
  rcases hb : parse row.birth_date with _ | bd
  · rw [stepRow_parse_fail parse st row (Or.inl hb)]; exact h
  rcases hv : parse row.visit_date with _ | vd
  · rw [stepRow_parse_fail parse st row (Or.inr hv)]; exact h
  rcases hp : st.db.patients row.mrn with _ | patient
  · rw [stepRow_fresh parse st row bd vd hb hv hp]
    rw [(visitPhase_frame _ _ _ _).1]
    by_cases hm : m = row.mrn
    · rw [hm] at h; rw [h] at hp; exact absurd hp (by simp)
    · simpa [hm] using h
  · rcases hq : st.db.persons patient.id with _ | person
    · rw [stepRow_no_person parse st row bd vd patient hb hv hp hq]; exact h
    · rw [stepRow_found parse st row bd vd patient person hb hv hp hq]
      rw [(visitPhase_frame _ _ _ _).1]
      split <;> exact h

/-- A visit row, once present, keeps its surrogate id and owning patient
through any later step; only its date and reason may change. -/
theorem stepRow_visits_stable (parse : String → Option Date) (st : WfState) (row : Row)
    (a : String) (v : VisitT) (h : st.db.visits a = some v) :
    ∃ x y, (stepRow parse st row).db.visits a = some ⟨v.id, v.patient_id, x, y⟩ := by
  have hvp : ∀ st' : WfState, st'.db.visits a = some v →
      ∀ pat vd, ∃ x y, (visitPhase st' pat row vd).db.visits a = some ⟨v.id, v.patient_id, x, y⟩ := by
    intro st' h' pat vd
    rcases hav : st'.db.visits row.visit_account_number with _ | visit
    · rw [visitPhase_fresh st' pat row vd hav]
      by_cases ha : a = row.visit_account_number
      · rw [ha] at h'; rw [h'] at hav; exact absurd hav (by simp)
      · exact ⟨v.visit_date, v.reason, by simpa [ha] using h'⟩
    · rw [visitPhase_found st' pat row vd visit hav]
      split
      · exact ⟨v.visit_date, v.reason, h'⟩
      · by_cases ha : a = row.visit_account_number
        · rw [ha] at h'; rw [h'] at hav
          injection hav with hav
          exact ⟨vd, row.reason, by simp [ha, ← hav]⟩
        · exact ⟨v.visit_date, v.reason, by simpa [ha] using h'⟩
  rcases hb : parse row.birth_date with _ | bd
  · rw [stepRow_parse_fail parse st row (Or.inl hb)]
    exact ⟨v.visit_date, v.reason, h⟩
  rcases hv : parse row.visit_date with _ | vd
  · rw [stepRow_parse_fail parse st row (Or.inr hv)]
    exact ⟨v.visit_date, v.reason, h⟩
  rcases hp : st.db.patients row.mrn with _ | patient
  · rw [stepRow_fresh parse st row bd vd hb hv hp]
    refine hvp _ ?_ _ _
    exact h
  · rcases hq : st.db.persons patient.id with _ | person
    · rw [stepRow_no_person parse st row bd vd patient hb hv hp hq]
      exact ⟨v.visit_date, v.reason, h⟩
    · rw [stepRow_found parse st row bd vd patient person hb hv hp hq]
      refine hvp _ ?_ _ _
      split <;> exact h

/-- A person row present before a step is still present after it. -/
theorem stepRow_persons_present (parse : String → Option Date) (st : WfState) (row : Row)
    (i : Nat) (h : (st.db.persons i).isSome) :
    ((stepRow parse st row).db.persons i).isSome := by
  rcases hb : parse row.birth_date with _ | bd
  · rw [stepRow_parse_fail parse st row (Or.inl hb)]; exact h
  rcases hv : parse row.visit_date with _ | vd
  · rw [stepRow_parse_fail parse st row (Or.inr hv)]; exact h
  rcases hp : st.db.patients row.mrn with _ | patient
  · rw [stepRow_fresh parse st row bd vd hb hv hp]
    rw [(visitPhase_frame _ _ _ _).2.1]
    by_cases hi : i = st.db.nextPatientId <;> simp [hi, h]
  · rcases hq : st.db.persons patient.id with _ | person
    · rw [stepRow_no_person parse st row bd vd patient hb hv hp hq]; exact h
    · rw [stepRow_found parse st row bd vd patient person hb hv hp hq]
      rw [(visitPhase_frame _ _ _ _).2.1]
      split
      · exact h
      · by_cases hi : i = patient.id <;> simp [hi, h]

/-- One step preserves well-formedness. -/
theorem stepRow_WF (parse : String → Option Date) (st : WfState) (row : Row)
    (h : WF st.db) : WF (stepRow parse st row).db := by
  intro m p hm
  rcases hb : parse row.birth_date with _ | bd
  · rw [stepRow_parse_fail parse st row (Or.inl hb)] at hm ⊢; exact h m p hm
  rcases hv : parse row.visit_date with _ | vd
  · rw [stepRow_parse_fail parse st row (Or.inr hv)] at hm ⊢; exact h m p hm
  rcases hp : st.db.patients row.mrn with _ | patient
  · rw [stepRow_fresh parse st row bd vd hb hv hp] at hm ⊢
    rw [(visitPhase_frame _ _ _ _).1] at hm
    rw [(visitPhase_frame _ _ _ _).2.1]
    by_cases hmm : m = row.mrn
    · simp only [hmm, if_pos rfl] at hm
      injection hm with hm
      rw [← hm]
      simp
    · simp only [hmm, if_neg hmm] at hm
      have := h m p hm
      by_cases hi : p.id = st.db.nextPatientId <;> simp [hi, this]
  · rcases hq : st.db.persons patient.id with _ | person
    · rw [stepRow_no_person parse st row bd vd patient hb hv hp hq] at hm ⊢
      exact h m p hm
    · rw [stepRow_found parse st row bd vd patient person hb hv hp hq] at hm ⊢
      rw [(visitPhase_frame _ _ _ _).1] at hm
      rw [(visitPhase_frame _ _ _ _).2.1]
      have hm' : st.db.patients m = some p := by
        revert hm
        split <;> exact fun hm => hm
      have hps := h m p hm'
      split
      · exact hps
      · by_cases hi : p.id = patient.id <;> simp [hi, hps]

@[simp] theorem runRows_nil (parse : String → Option Date) (st : WfState) :
    runRows parse st [] = st := rfl

@[simp] theorem runRows_cons (parse : String → Option Date) (st : WfState) (r : Row)
    (rows : List Row) :
    runRows parse st (r :: rows) = runRows parse (stepRow parse st r) rows := rfl

/-- Patient rows survive a whole run unchanged. -/
theorem runRows_patients_stable (parse : String → Option Date) (rows : List Row) :
    ∀ (st : WfState) (m : String) (p : PatientT), st.db.patients m = some p →
      (runRows parse st rows).db.patients m = some p := by
  induction rows with
  | nil => intro st m p h; exact h
  | cons r L ih =>
    intro st m p h
    rw [runRows_cons]
    exact ih _ m p (stepRow_patients_stable parse st r m p h)

/-- Visit rows keep their surrogate id and owning patient through a whole
run. -/
theorem runRows_visits_stable (parse : String → Option Date) (rows : List Row) :
    ∀ (st : WfState) (a : String) (v : VisitT), st.db.visits a = some v →
      ∃ x y, (runRows parse st rows).db.visits a = some ⟨v.id, v.patient_id, x, y⟩ := by
  induction rows with
  | nil => intro st a v h; exact ⟨v.visit_date, v.reason, h⟩
  | cons r L ih =>
    intro st a v h
    rw [runRows_cons]
    obtain ⟨x, y, hx⟩ := stepRow_visits_stable parse st r a v h
    obtain ⟨x', y', hx'⟩ := ih _ a ⟨v.id, v.patient_id, x, y⟩ hx
    exact ⟨x', y', hx'⟩

/-- Person rows present before a run are present after it. -/
theorem runRows_persons_present (parse : String → Option Date) (rows : List Row) :
    ∀ (st : WfState) (i : Nat), (st.db.persons i).isSome →
      ((runRows parse st rows).db.persons i).isSome := by
  induction rows with
  | nil => intro st i h; exact h
  | cons r L ih =>
    intro st i h
    rw [runRows_cons]
    exact ih _ i (stepRow_persons_present parse st r i h)

/-- A whole run preserves store well-formedness. -/
theorem runRows_WF (parse : String → Option Date) (rows : List Row) :
    ∀ st : WfState, WF st.db → WF (runRows parse st rows).db := by
  induction rows with
  | nil => intro st h; exact h
  | cons r L ih =>
    intro st h
    rw [runRows_cons]
    exact ih _ (stepRow_WF parse st r h)

/-- Every branch of a step bumps `processed_count` by exactly one: every row
is attempted, including failing ones. -/
theorem stepRow_processedCount (parse : String → Option Date) (st : WfState) (row : Row) :
    (stepRow parse st row).processedCount = st.processedCount + 1 := by
  rcases hb : parse row.birth_date with _ | bd
  · rw [stepRow_parse_fail parse st row (Or.inl hb)]
  rcases hv : parse row.visit_date with _ | vd
  · rw [stepRow_parse_fail parse st row (Or.inr hv)]
  rcases hp : st.db.patients row.mrn with _ | patient
  · rw [stepRow_fresh parse st row bd vd hb hv hp]
    exact (visitPhase_frame _ _ _ _).2.2.2.2.2.1
  · rcases hq : st.db.persons patient.id with _ | person
    · rw [stepRow_no_person parse st row bd vd patient hb hv hp hq]
    · rw [stepRow_found parse st row bd vd patient person hb hv hp hq]
      exact (visitPhase_frame _ _ _ _).2.2.2.2.2.1

/-- A whole run attempts every row. -/
theorem runRows_processedCount (parse : String → Option Date) (rows : List Row) :
    ∀ st : WfState, (runRows parse st rows).processedCount = st.processedCount + rows.length := by
  induction rows with
  | nil => intro st; rfl
  | cons r L ih =>
    intro st
    rw [runRows_cons, ih, stepRow_processedCount]
    simp only [List.length_cons]
    omega

/-- A step only ever appends to the error list. -/
theorem stepRow_errors_mono (parse : String → Option Date) (st : WfState) (row : Row) :
    ∃ l, (stepRow parse st row).errors = st.errors ++ l := by
  rcases hb : parse row.birth_date with _ | bd
  · rw [stepRow_parse_fail parse st row (Or.inl hb)]
    exact ⟨_, rfl⟩
  rcases hv : parse row.visit_date with _ | vd
  · rw [stepRow_parse_fail parse st row (Or.inr hv)]
    exact ⟨_, rfl⟩
  rcases hp : st.db.patients row.mrn with _ | patient
  · rw [stepRow_fresh parse st row bd vd hb hv hp]
    rw [(visitPhase_frame _ _ _ _).2.2.2.2.2.2]
    exact ⟨[], by simp⟩
  · rcases hq : st.db.persons patient.id with _ | person
    · rw [stepRow_no_person parse st row bd vd patient hb hv hp hq]
      exact ⟨_, rfl⟩
    · rw [stepRow_found parse st row bd vd patient person hb hv hp hq]
      rw [(visitPhase_frame _ _ _ _).2.2.2.2.2.2]
      exact ⟨[], by simp⟩

/-- A whole run only ever appends to the error list. -/
theorem runRows_errors_mono (parse : String → Option Date) (rows : List Row) :
    ∀ st : WfState, ∃ l, (runRows parse st rows).errors = st.errors ++ l := by
  induction rows with
  | nil => intro st; exact ⟨[], by simp⟩
  | cons r L ih =>
    intro st
    rw [runRows_cons]
    obtain ⟨l1, h1⟩ := stepRow_errors_mono parse st r
    obtain ⟨l2, h2⟩ := ih (stepRow parse st r)
    exact ⟨l1 ++ l2, by rw [h2, h1, List.append_assoc]⟩

/-- After the visit half, the row's account number is present. -/
theorem visitPhase_establishes (st : WfState) (pat : PatientT) (row : Row) (vd : Date) :
    ((visitPhase st pat row vd).db.visits row.visit_account_number).isSome := by
  rcases h : st.db.visits row.visit_account_number with _ | visit
  · rw [visitPhase_fresh st pat row vd h]; simp
  · rw [visitPhase_found st pat row vd visit h]
    split
    · simp [h]
    · simp

/-- When the row's visit already exists, the visit half creates nothing and
leaves the patient side of the store untouched. -/
theorem visitPhase_no_create (st : WfState) (pat : PatientT) (row : Row) (vd : Date)
    (hvis : (st.db.visits row.visit_account_number).isSome) :
    (visitPhase st pat row vd).db.patients = st.db.patients ∧
    (visitPhase st pat row vd).db.persons = st.db.persons ∧
    (visitPhase st pat row vd).db.nextPatientId = st.db.nextPatientId ∧
    (visitPhase st pat row vd).db.nextVisitId = st.db.nextVisitId ∧
    (visitPhase st pat row vd).patientsCreated = st.patientsCreated ∧
    (visitPhase st pat row vd).visitsCreated = st.visitsCreated := by
  obtain ⟨visit, hv⟩ := Option.isSome_iff_exists.mp hvis
  rw [visitPhase_found st pat row vd visit hv]
  refine ⟨?_, ?_, ?_, ?_, rfl, rfl⟩ <;> (split <;> rfl)

/-- Transport form of `visitPhase_no_create`, phrased against arbitrary
reference values so that it can be `apply`ed against a goal about the state
produced by the patient half of a step. -/
theorem visitPhase_no_create_into (ST : WfState) (pat : PatientT) (row : Row) (vd : Date)
    (db0 : Store) (pc vc : Nat)
    (h1 : ST.db.patients = db0.patients) (h2 : ST.db.nextPatientId = db0.nextPatientId)
    (h3 : ST.db.nextVisitId = db0.nextVisitId) (h4 : ST.patientsCreated = pc)
    (h5 : ST.visitsCreated = vc)
    (hvis : (ST.db.visits row.visit_account_number).isSome) :
    (visitPhase ST pat row vd).db.patients = db0.patients ∧
    (visitPhase ST pat row vd).db.nextPatientId = db0.nextPatientId ∧
    (visitPhase ST pat row vd).db.nextVisitId = db0.nextVisitId ∧
    (visitPhase ST pat row vd).patientsCreated = pc ∧
    (visitPhase ST pat row vd).visitsCreated = vc := by
  obtain ⟨c1, _c2, _c3, c4, _c5, c6⟩ := visitPhase_no_create ST pat row vd hvis
  obtain ⟨visit, hv⟩ := Option.isSome_iff_exists.mp hvis
  rw [visitPhase_found ST pat row vd visit hv] at c1 c4 c6 ⊢
  refine ⟨by rw [c1, h1], ?_, ?_, by rw [← h4], by rw [← h5]⟩
  · rw [← h2]; split <;> rfl
  · rw [← h3]; split <;> rfl

/-- A parseable row on a well-formed store establishes both of its natural
keys: after the step its MRN and its account number are present. -/
theorem stepRow_establishes (parse : String → Option Date) (st : WfState) (row : Row)
    (hwf : WF st.db) (hpr : parsesB parse row = true) :
    ((stepRow parse st row).db.patients row.mrn).isSome ∧
    ((stepRow parse st row).db.visits row.visit_account_number).isSome := by
  have hb' := (Bool.and_eq_true _ _).mp hpr
  obtain ⟨bd, hb⟩ := Option.isSome_iff_exists.mp hb'.1
  obtain ⟨vd, hv⟩ := Option.isSome_iff_exists.mp hb'.2
  rcases hp : st.db.patients row.mrn with _ | patient
  · rw [stepRow_fresh parse st row bd vd hb hv hp]
    constructor
    · rw [(visitPhase_frame _ _ _ _).1]
      simp
    · exact visitPhase_establishes _ _ _ _
  · obtain ⟨person, hq⟩ := Option.isSome_iff_exists.mp (hwf _ _ hp)
    rw [stepRow_found parse st row bd vd patient person hb hv hp hq]
    constructor
    · rw [(visitPhase_frame _ _ _ _).1]
      split <;> simp [hp]
    · exact visitPhase_establishes _ _ _ _

/-- After a run on a well-formed store, every parseable row of the batch has
both of its natural keys present (the run saturates its own batch). -/
theorem runRows_sat (parse : String → Option Date) (rows : List Row) :
    ∀ st : WfState, WF st.db → ∀ r ∈ rows, parsesB parse r = true →
      ((runRows parse st rows).db.patients r.mrn).isSome ∧
      ((runRows parse st rows).db.visits r.visit_account_number).isSome := by
  induction rows with
  | nil => intro st _ r hr; exact absurd hr (List.not_mem_nil r)
  | cons r' L ih =>
    intro st hwf r hr hpr
    rw [runRows_cons]
    rcases List.mem_cons.mp hr with hr | hr
    · subst hr
      obtain ⟨h1, h2⟩ := stepRow_establishes parse st r hwf hpr
      constructor
      · obtain ⟨p, hp⟩ := Option.isSome_iff_exists.mp h1
        exact Option.isSome_iff_exists.mpr
          ⟨p, runRows_patients_stable parse L _ _ p hp⟩
      · obtain ⟨v, hv⟩ := Option.isSome_iff_exists.mp h2
        obtain ⟨x, y, hxy⟩ := runRows_visits_stable parse L _ _ v hv
        exact Option.isSome_iff_exists.mpr ⟨_, hxy⟩
    · exact ih _ (stepRow_WF parse st r' hwf) r hr hpr

/-- A step whose parseable row already has both keys creates nothing: the
patient table, both id counters and both created tallies are untouched. -/
theorem stepRow_no_create (parse : String → Option Date) (st : WfState) (row : Row)
    (h : parsesB parse row = true →
      (st.db.patients row.mrn).isSome ∧ (st.db.visits row.visit_account_number).isSome) :
    (stepRow parse st row).db.patients = st.db.patients ∧
    (stepRow parse st row).db.nextPatientId = st.db.nextPatientId ∧
    (stepRow parse st row).db.nextVisitId = st.db.nextVisitId ∧
    (stepRow parse st row).patientsCreated = st.patientsCreated ∧
    (stepRow parse st row).visitsCreated = st.visitsCreated := by
  rcases hb : parse row.birth_date with _ | bd
  · rw [stepRow_parse_fail parse st row (Or.inl hb)]
    exact ⟨rfl, rfl, rfl, rfl, rfl⟩
  rcases hv : parse row.visit_date with _ | vd
  · rw [stepRow_parse_fail parse st row (Or.inr hv)]
    exact ⟨rfl, rfl, rfl, rfl, rfl⟩
  have hpr : parsesB parse row = true := by simp [parsesB, hb, hv]
  obtain ⟨hpat, hvis⟩ := h hpr
  obtain ⟨patient, hp⟩ := Option.isSome_iff_exists.mp hpat
  rcases hq : st.db.persons patient.id with _ | person
  · rw [stepRow_no_person parse st row bd vd patient hb hv hp hq]
    exact ⟨rfl, rfl, rfl, rfl, rfl⟩
  · rw [stepRow_found parse st row bd vd patient person hb hv hp hq]
    apply visitPhase_no_create_into
    · split <;> rfl
    · split <;> rfl
    · split <;> rfl
    · rfl
    · rfl
    · split <;> exact hvis

/-- A run over a batch whose parseable rows all have both keys present
creates nothing at all. -/
theorem runRows_no_create (parse : String → Option Date) (rows : List Row) :
    ∀ st : WfState,
      (∀ r ∈ rows, parsesB parse r = true →
        (st.db.patients r.mrn).isSome ∧ (st.db.visits r.visit_account_number).isSome) →
      (runRows parse st rows).db.patients = st.db.patients ∧
      (runRows parse st rows).db.nextPatientId = st.db.nextPatientId ∧
      (runRows parse st rows).db.nextVisitId = st.db.nextVisitId ∧
      (runRows parse st rows).patientsCreated = st.patientsCreated ∧
      (runRows parse st rows).visitsCreated = st.visitsCreated := by
  induction rows with
  | nil => intro st _; exact ⟨rfl, rfl, rfl, rfl, rfl⟩
  | cons r L ih =>
    intro st hsat
    rw [runRows_cons]
    obtain ⟨c1, c2, c3, c4, c5⟩ :=
      stepRow_no_create parse st r (hsat r (List.mem_cons_self r L))
    have hsat' : ∀ r' ∈ L, parsesB parse r' = true →
        ((stepRow parse st r).db.patients r'.mrn).isSome ∧
        ((stepRow parse st r).db.visits r'.visit_account_number).isSome := by
      intro r' hr' hpr'
      obtain ⟨h1, h2⟩ := hsat r' (List.mem_cons_of_mem r hr') hpr'
      constructor
      · rw [c1]; exact h1
      · obtain ⟨v, hv⟩ := Option.isSome_iff_exists.mp h2
        obtain ⟨x, y, hxy⟩ := stepRow_visits_stable parse st r _ v hv
        exact Option.isSome_iff_exists.mpr ⟨_, hxy⟩
    obtain ⟨d1, d2, d3, d4, d5⟩ := ih _ hsat'
    exact ⟨by rw [d1, c1], by rw [d2, c2], by rw [d3, c3], by rw [d4, c4], by rw [d5, c5]⟩

/-- If no parseable row of the batch resolves (in the final store) to the
person id `i`, the person row at `i` is untouched by the run. -/
theorem runRows_persons_frame (parse : String → Option Date) (rows : List Row) :
    ∀ (st : WfState) (i : Nat),
      (∀ r ∈ rows, parsesB parse r = true →
        ∀ q, (runRows parse st rows).db.patients r.mrn = some q → q.id ≠ i) →
      (runRows parse st rows).db.persons i = st.db.persons i := by
  induction rows with
  | nil => intro st i _; rfl
  | cons r L ih =>
    intro st i hnt
    rw [runRows_cons] at hnt ⊢
    have hstep : (stepRow parse st r).db.persons i = st.db.persons i := by
      rcases hb : parse r.birth_date with _ | bd
      · rw [stepRow_parse_fail parse st r (Or.inl hb)]
      rcases hv : parse r.visit_date with _ | vd
      · rw [stepRow_parse_fail parse st r (Or.inr hv)]
      have hpr : parsesB parse r = true := by simp [parsesB, hb, hv]
      rcases hp : st.db.patients r.mrn with _ | patient
      · rw [stepRow_fresh parse st r bd vd hb hv hp]
        rw [(visitPhase_frame _ _ _ _).2.1]
        have hq : (runRows parse (stepRow parse st r) L).db.patients r.mrn
            = some ⟨st.db.nextPatientId, r.mrn⟩ := by
          apply runRows_patients_stable
          rw [stepRow_fresh parse st r bd vd hb hv hp]
          rw [(visitPhase_frame _ _ _ _).1]
          simp
        have hne := hnt r (List.mem_cons_self r L) hpr _ hq
        by_cases hi : i = st.db.nextPatientId
        · exact absurd hi.symm hne
        · simp [hi]
      · rcases hq : st.db.persons patient.id with _ | person
        · rw [stepRow_no_person parse st r bd vd patient hb hv hp hq]
        · rw [stepRow_found parse st r bd vd patient person hb hv hp hq]
          rw [(visitPhase_frame _ _ _ _).2.1]
          have hq2 : (runRows parse (stepRow parse st r) L).db.patients r.mrn
              = some patient := by
            apply runRows_patients_stable
            rw [stepRow_found parse st r bd vd patient person hb hv hp hq]
            rw [(visitPhase_frame _ _ _ _).1]
            split <;> exact hp
          have hne := hnt r (List.mem_cons_self r L) hpr patient hq2
          split
          · rfl
          · by_cases hi : i = patient.id
            · exact absurd hi.symm hne
            · simp [hi]
    have hnt' : ∀ r' ∈ L, parsesB parse r' = true →
        ∀ q, (runRows parse (stepRow parse st r) L).db.patients r'.mrn = some q → q.id ≠ i :=
      fun r' hr' hpr' q hq => hnt r' (List.mem_cons_of_mem r hr') hpr' q hq
    rw [ih _ i hnt', hstep]

/-- Last-writer-wins for person rows: if `rl` is the last row of the batch
that resolves to person id `i`, the person row at `i` after the run holds
exactly `rl`'s demographics. -/
theorem runRows_persons_last (parse : String → Option Date) (rows : List Row) :
    ∀ (st : WfState) (i : Nat) (rl : Row),
      WF st.db →
      (rows.filter (touches parse (runRows parse st rows).db i)).getLast? = some rl →
      ∃ bd, parse rl.birth_date = some bd ∧
        (runRows parse st rows).db.persons i = some ⟨rl.first_name, rl.last_name, bd⟩ := by
  induction rows with
  | nil => intro st i rl _ h; simp at h
  | cons r L ih =>
    intro st i rl hwf hlast
    rw [runRows_cons] at hlast ⊢
    rw [List.filter_cons] at hlast
    by_cases hfr : touches parse (runRows parse (stepRow parse st r) L).db i r = true
    · rw [if_pos hfr] at hlast
      rcases hLf : L.filter (touches parse (runRows parse (stepRow parse st r) L).db i)
        with _ | ⟨x, xs⟩
      · rw [hLf] at hlast
        have hrl : rl = r := by
          simp [List.getLast?] at hlast
          exact hlast.symm
        subst hrl
        obtain ⟨hpr, hres⟩ := (Bool.and_eq_true _ _).mp hfr
        have hres' := of_decide_eq_true hres
        have hb' := (Bool.and_eq_true _ _).mp hpr
        obtain ⟨bd, hb⟩ := Option.isSome_iff_exists.mp hb'.1
        obtain ⟨vd, hv⟩ := Option.isSome_iff_exists.mp hb'.2
        refine ⟨bd, hb, ?_⟩
        have hfreeze : ∀ q : PatientT,
            (stepRow parse st rl).db.patients rl.mrn = some q →
            (stepRow parse st rl).db.persons q.id
              = some ⟨rl.first_name, rl.last_name, bd⟩ → q.id = i ∧
            (runRows parse (stepRow parse st rl) L).db.persons i
              = some ⟨rl.first_name, rl.last_name, bd⟩ := by
          intro q hq hqp
          have hD : (runRows parse (stepRow parse st rl) L).db.patients rl.mrn = some q :=
            runRows_patients_stable parse L _ _ q hq
          rw [hD] at hres'
          have hqi : q.id = i := by simpa using hres'
          refine ⟨hqi, ?_⟩
          have hframe := runRows_persons_frame parse L (stepRow parse st rl) i ?frame
          · rw [hframe, ← hqi, hqp]
          case frame =>
            intro r' hr' hpr' q' hq' hq'i
            have hmem : r' ∈ L.filter
                (touches parse (runRows parse (stepRow parse st rl) L).db i) := by
              refine List.mem_filter.mpr ⟨hr', ?_⟩
              unfold touches
              rw [hq']
              simp [hpr', hq'i]
            rw [hLf] at hmem
            exact absurd hmem (List.not_mem_nil r')
        rcases hp : st.db.patients rl.mrn with _ | patient
        · have hq : (stepRow parse st rl).db.patients rl.mrn
              = some ⟨st.db.nextPatientId, rl.mrn⟩ := by
            rw [stepRow_fresh parse st rl bd vd hb hv hp]
            rw [(visitPhase_frame _ _ _ _).1]
            simp
          have hqp : (stepRow parse st rl).db.persons st.db.nextPatientId
              = some ⟨rl.first_name, rl.last_name, bd⟩ := by
            rw [stepRow_fresh parse st rl bd vd hb hv hp]
            rw [(visitPhase_frame _ _ _ _).2.1]
            simp
          exact (hfreeze _ hq hqp).2
        · obtain ⟨person, hqper⟩ := Option.isSome_iff_exists.mp (hwf _ _ hp)
          have hq : (stepRow parse st rl).db.patients rl.mrn = some patient := by
            rw [stepRow_found parse st rl bd vd patient person hb hv hp hqper]
            rw [(visitPhase_frame _ _ _ _).1]
            split <;> exact hp
          have hqp : (stepRow parse st rl).db.persons patient.id
              = some ⟨rl.first_name, rl.last_name, bd⟩ := by
            rw [stepRow_found parse st rl bd vd patient person hb hv hp hqper]
            rw [(visitPhase_frame _ _ _ _).2.1]
            split
            · next heq => rw [hqper, heq]
            · simp
          exact (hfreeze _ hq hqp).2
      · rw [hLf, List.getLast?_cons_cons, ← hLf] at hlast
        exact ih _ i rl (stepRow_WF parse st r hwf) hlast
    · rw [if_neg hfr] at hlast
      exact ih _ i rl (stepRow_WF parse st r hwf) hlast

/-- The visit half writes nothing at account numbers other than the row's. -/
theorem visitPhase_visits_untouched (st : WfState) (pat : PatientT) (row : Row) (vd : Date)
    (a : String) (ha : row.visit_account_number ≠ a) :
    (visitPhase st pat row vd).db.visits a = st.db.visits a := by
  have ha' : a ≠ row.visit_account_number := fun h' => ha h'.symm
  rcases h : st.db.visits row.visit_account_number with _ | visit
  · rw [visitPhase_fresh st pat row vd h]
    simp [ha']
  · rw [visitPhase_found st pat row vd visit h]
    split
    · rfl
    · simp [ha']

/-- A step whose row does not carry account number `a` (or does not parse)
leaves the visit row at `a` untouched. -/
theorem stepRow_visits_untouched (parse : String → Option Date) (st : WfState) (row : Row)
    (a : String) (h : parsesB parse row = true → row.visit_account_number ≠ a) :
    (stepRow parse st row).db.visits a = st.db.visits a := by
  rcases hb : parse row.birth_date with _ | bd
  · rw [stepRow_parse_fail parse st row (Or.inl hb)]
  rcases hv : parse row.visit_date with _ | vd
  · rw [stepRow_parse_fail parse st row (Or.inr hv)]
  have hpr : parsesB parse row = true := by simp [parsesB, hb, hv]
  have ha := h hpr
  rcases hp : st.db.patients row.mrn with _ | patient
  · rw [stepRow_fresh parse st row bd vd hb hv hp]
    rw [visitPhase_visits_untouched _ _ _ _ a ha]
  · rcases hq : st.db.persons patient.id with _ | person
    · rw [stepRow_no_person parse st row bd vd patient hb hv hp hq]
    · rw [stepRow_found parse st row bd vd patient person hb hv hp hq]
      rw [visitPhase_visits_untouched _ _ _ _ a ha]
      split <;> rfl

/-- If no parseable row of the batch carries account number `a`, the visit
row at `a` is untouched by the run. -/
theorem runRows_visits_frame (parse : String → Option Date) (rows : List Row) :
    ∀ (st : WfState) (a : String),
      (∀ r ∈ rows, parsesB parse r = true → r.visit_account_number ≠ a) →
      (runRows parse st rows).db.visits a = st.db.visits a := by
  induction rows with
  | nil => intro st a _; rfl
  | cons r L ih =>
    intro st a hnt
    rw [runRows_cons]
    rw [ih _ a (fun r' hr' => hnt r' (List.mem_cons_of_mem r hr'))]
    exact stepRow_visits_untouched parse st r a (hnt r (List.mem_cons_self r L))

/-- After the visit half, the visit at the row's account number carries the
row's date and reason. -/
theorem visitPhase_visit_write (st : WfState) (pat : PatientT) (row : Row) (vd : Date) :
    ∃ v0 : VisitT, (visitPhase st pat row vd).db.visits row.visit_account_number = some v0 ∧
      v0.visit_date = vd ∧ v0.reason = row.reason := by
  rcases h : st.db.visits row.visit_account_number with _ | visit
  · rw [visitPhase_fresh st pat row vd h]
    exact ⟨⟨st.db.nextVisitId, pat.id, vd, row.reason⟩, by simp, rfl, rfl⟩
  · rw [visitPhase_found st pat row vd visit h]
    split
    · next heq => exact ⟨visit, h, heq.1, heq.2⟩
    · exact ⟨⟨visit.id, visit.patient_id, vd, row.reason⟩, by simp, rfl, rfl⟩

/-- A parseable row on a well-formed store reaches the visit half and writes
its date and reason at its account number. -/
theorem stepRow_visit_write (parse : String → Option Date) (st : WfState) (row : Row)
    (bd vd : Date)
    (hwf : WF st.db)
    (hb : parse row.birth_date = some bd) (hv : parse row.visit_date = some vd) :
    ∃ v0 : VisitT, (stepRow parse st row).db.visits row.visit_account_number = some v0 ∧
      v0.visit_date = vd ∧ v0.reason = row.reason := by
  rcases hp : st.db.patients row.mrn with _ | patient
  · rw [stepRow_fresh parse st row bd vd hb hv hp]
    exact visitPhase_visit_write _ _ _ _
  · obtain ⟨person, hq⟩ := Option.isSome_iff_exists.mp (hwf _ _ hp)
    rw [stepRow_found parse st row bd vd patient person hb hv hp hq]
    exact visitPhase_visit_write _ _ _ _

/-- Last-writer-wins for visit rows: if `rl` is the last parseable row of
the batch carrying account number `a`, the visit at `a` after the run holds
exactly `rl`'s date and reason. -/
theorem runRows_visits_last (parse : String → Option Date) (rows : List Row) :
    ∀ (st : WfState) (a : String) (rl : Row),
      WF st.db →
      (rows.filter (touchesA parse a)).getLast? = some rl →
      ∃ (v : VisitT) (vd : Date), parse rl.visit_date = some vd ∧
        (runRows parse st rows).db.visits a = some v ∧
        v.visit_date = vd ∧ v.reason = rl.reason := by
  induction rows with
  | nil => intro st a rl _ h; simp at h
  | cons r L ih =>
    intro st a rl hwf hlast
    rw [runRows_cons]
    rw [List.filter_cons] at hlast
    by_cases hfr : touchesA parse a r = true
    · rw [if_pos hfr] at hlast
      rcases hLf : L.filter (touchesA parse a) with _ | ⟨x, xs⟩
      · rw [hLf] at hlast
        have hrl : rl = r := by
          simp [List.getLast?] at hlast
          exact hlast.symm
        subst hrl
        obtain ⟨hpr, hacc⟩ := (Bool.and_eq_true _ _).mp hfr
        have hacc' : rl.visit_account_number = a := of_decide_eq_true hacc
        have hb' := (Bool.and_eq_true _ _).mp hpr
        obtain ⟨bd, hb⟩ := Option.isSome_iff_exists.mp hb'.1
        obtain ⟨vd, hv⟩ := Option.isSome_iff_exists.mp hb'.2
        obtain ⟨v0, hv0, hvd0, hrs0⟩ := stepRow_visit_write parse st rl bd vd hwf hb hv
        have hframe := runRows_visits_frame parse L (stepRow parse st rl) a ?frame
        · refine ⟨v0, vd, hv, ?_, hvd0, hrs0⟩
          rw [hframe, ← hacc', hv0]
        case frame =>
          intro r' hr' hpr' ha'
          have hmem : r' ∈ L.filter (touchesA parse a) :=
            List.mem_filter.mpr ⟨hr', by unfold touchesA; simp [hpr', ha']⟩
          rw [hLf] at hmem
          exact absurd hmem (List.not_mem_nil r')
      · rw [hLf, List.getLast?_cons_cons, ← hLf] at hlast
        exact ih _ a rl (stepRow_WF parse st r hwf) hlast
    · rw [if_neg hfr] at hlast
      exact ih _ a rl (stepRow_WF parse st r hwf) hlast

/-- The visit half counts exactly one visit outcome. -/
theorem visitPhase_visit_tally (st : WfState) (pat : PatientT) (row : Row) (vd : Date) :
    (visitPhase st pat row vd).visitsCreated + (visitPhase st pat row vd).visitsUpdated
      = st.visitsCreated + st.visitsUpdated + 1 := by
  rcases h : st.db.visits row.visit_account_number with _ | visit
  · rw [visitPhase_fresh st pat row vd h]
    show st.visitsCreated + 1 + st.visitsUpdated = st.visitsCreated + st.visitsUpdated + 1
    omega
  · rw [visitPhase_found st pat row vd visit h]
    show st.visitsCreated + (st.visitsUpdated + 1) = st.visitsCreated + st.visitsUpdated + 1
    omega

/-- On a well-formed store, a parseable row counts exactly one patient
outcome and one visit outcome; an unparseable row counts neither. -/
theorem stepRow_tallies (parse : String → Option Date) (st : WfState) (row : Row)
    (hwf : WF st.db) :
    (stepRow parse st row).patientsCreated + (stepRow parse st row).patientsUpdated
      = st.patientsCreated + st.patientsUpdated + (if parsesB parse row then 1 else 0) ∧
    (stepRow parse st row).visitsCreated + (stepRow parse st row).visitsUpdated
      = st.visitsCreated + st.visitsUpdated + (if parsesB parse row then 1 else 0) := by
  rcases hb : parse row.birth_date with _ | bd
  · rw [stepRow_parse_fail parse st row (Or.inl hb)]
    simp [parsesB, hb]
  rcases hv : parse row.visit_date with _ | vd
  · rw [stepRow_parse_fail parse st row (Or.inr hv)]
    simp [parsesB, hb, hv]
  have hpr : parsesB parse row = true := by simp [parsesB, hb, hv]
  rcases hp : st.db.patients row.mrn with _ | patient
  · rw [stepRow_fresh parse st row bd vd hb hv hp]
    constructor
    · rw [(visitPhase_frame _ _ _ _).2.2.2.1, (visitPhase_frame _ _ _ _).2.2.2.2.1]
      show st.patientsCreated + 1 + st.patientsUpdated
        = st.patientsCreated + st.patientsUpdated + _
      simp [hpr]
      omega
    · rw [visitPhase_visit_tally]
      show st.visitsCreated + st.visitsUpdated + 1
        = st.visitsCreated + st.visitsUpdated + _
      simp [hpr]
  · obtain ⟨person, hq⟩ := Option.isSome_iff_exists.mp (hwf _ _ hp)
    rw [stepRow_found parse st row bd vd patient person hb hv hp hq]
    constructor
    · rw [(visitPhase_frame _ _ _ _).2.2.2.1, (visitPhase_frame _ _ _ _).2.2.2.2.1]
      show st.patientsCreated + (st.patientsUpdated + 1)
        = st.patientsCreated + st.patientsUpdated + _
      simp [hpr]
      omega
    · rw [visitPhase_visit_tally]
      show st.visitsCreated + st.visitsUpdated + 1
        = st.visitsCreated + st.visitsUpdated + _
      simp [hpr]

/-- Over a whole run on a well-formed store, created-plus-updated equals the
number of parseable rows, for patients and for visits alike. -/
theorem runRows_tallies (parse : String → Option Date) (rows : List Row) :
    ∀ st : WfState, WF st.db →
      (runRows parse st rows).patientsCreated + (runRows parse st rows).patientsUpdated
        = st.patientsCreated + st.patientsUpdated + rows.countP (parsesB parse) ∧
      (runRows parse st rows).visitsCreated + (runRows parse st rows).visitsUpdated
        = st.visitsCreated + st.visitsUpdated + rows.countP (parsesB parse) := by
  induction rows with
  | nil => intro st _; simp
  | cons r L ih =>
    intro st hwf
    rw [runRows_cons]
    obtain ⟨p1, v1⟩ := stepRow_tallies parse st r hwf
    obtain ⟨p2, v2⟩ := ih _ (stepRow_WF parse st r hwf)
    rw [List.countP_cons]
    constructor
    · rw [p2, p1]
      rcases Bool.eq_false_or_eq_true (parsesB parse r) with h | h
      · simp [h]
        omega
      · simp [h]
    · rw [v2, v1]
      rcases Bool.eq_false_or_eq_true (parsesB parse r) with h | h
      · simp [h]
        omega
      · simp [h]

/-- C1: replaying the same staged rows over the store left by a first run
changes nothing: every MRN and account number created by the first run is
found by natural-key lookup and reconciled as an update, so the store
(patients, persons, visits and both id counters) after the second run
equals the store after the first; the second run creates no patients and no
visits, and its updated tallies absorb the first run's created-plus-updated
counts (the create-vs-update tallies merely shift). -/
theorem replay_reconciliation_idempotent (parse : String → Option Date) (db : Store)
    (rows : List Row) (hwf : WF db) :
    (runRows parse (initState (runRows parse (initState db) rows).db) rows).db
      = (runRows parse (initState db) rows).db ∧
    (runRows parse (initState (runRows parse (initState db) rows).db) rows).patientsCreated = 0 ∧
    (runRows parse (initState (runRows parse (initState db) rows).db) rows).visitsCreated = 0 ∧
    (runRows parse (initState (runRows parse (initState db) rows).db) rows).patientsUpdated
      = (runRows parse (initState db) rows).patientsCreated
        + (runRows parse (initState db) rows).patientsUpdated ∧
    (runRows parse (initState (runRows parse (initState db) rows).db) rows).visitsUpdated
      = (runRows parse (initState db) rows).visitsCreated
        + (runRows parse (initState db) rows).visitsUpdated := by
  have hwf1 : WF (initState db).db := hwf
  have hwfD : WF (runRows parse (initState db) rows).db := runRows_WF parse rows _ hwf1
  have hsat : ∀ r ∈ rows, parsesB parse r = true →
      ((runRows parse (initState db) rows).db.patients r.mrn).isSome ∧
      ((runRows parse (initState db) rows).db.visits r.visit_account_number).isSome :=
    runRows_sat parse rows (initState db) hwf1
  obtain ⟨hP, hN1, hN2, hC1, hC2⟩ := runRows_no_create parse rows
    (initState (runRows parse (initState db) rows).db) (fun r hr hp => hsat r hr hp)
  have hP' : (runRows parse (initState (runRows parse (initState db) rows).db) rows).db.patients
      = (runRows parse (initState db) rows).db.patients := hP
  have hN1' : (runRows parse (initState (runRows parse (initState db) rows).db) rows).db.nextPatientId
      = (runRows parse (initState db) rows).db.nextPatientId := hN1
  have hN2' : (runRows parse (initState (runRows parse (initState db) rows).db) rows).db.nextVisitId
      = (runRows parse (initState db) rows).db.nextVisitId := hN2
  have hC1' : (runRows parse (initState (runRows parse (initState db) rows).db) rows).patientsCreated
      = 0 := hC1
  have hC2' : (runRows parse (initState (runRows parse (initState db) rows).db) rows).visitsCreated
      = 0 := hC2
  have hpredEq : ∀ i, rows.filter
      (touches parse (runRows parse (initState (runRows parse (initState db) rows).db) rows).db i)
      = rows.filter (touches parse (runRows parse (initState db) rows).db i) := by
    intro i
    refine List.filter_congr ?_
    intro r _
    unfold touches
    rw [congrFun hP' r.mrn]
  have hpers : ∀ i,
      (runRows parse (initState (runRows parse (initState db) rows).db) rows).db.persons i
        = (runRows parse (initState db) rows).db.persons i := by
    intro i
    rcases hcase : (rows.filter
        (touches parse (runRows parse (initState db) rows).db i)).getLast? with _ | rl
    · have hempty : rows.filter (touches parse (runRows parse (initState db) rows).db i) = [] :=
        List.getLast?_eq_none_iff.mp hcase
      have hframe := runRows_persons_frame parse rows
        (initState (runRows parse (initState db) rows).db) i ?_
      · exact hframe
      · intro r hr hpr q hq hqi
        have hmem : r ∈ rows.filter
            (touches parse (runRows parse (initState db) rows).db i) := by
          refine List.mem_filter.mpr ⟨hr, ?_⟩
          unfold touches
          rw [← congrFun hP' r.mrn, hq]
          simp [hpr, hqi]
        rw [hempty] at hmem
        exact absurd hmem (List.not_mem_nil r)
    · obtain ⟨bd1, hbd1, hp1⟩ :=
        runRows_persons_last parse rows (initState db) i rl hwf1 hcase
      have hcase2 : (rows.filter
          (touches parse
            (runRows parse (initState (runRows parse (initState db) rows).db) rows).db i)).getLast?
          = some rl := by
        rw [hpredEq i]
        exact hcase
      obtain ⟨bd2, hbd2, hp2⟩ :=
        runRows_persons_last parse rows (initState (runRows parse (initState db) rows).db) i rl
          hwfD hcase2
      rw [hbd1] at hbd2
      injection hbd2 with hbd2
      rw [hp2, hp1, hbd2]
  have hvis : ∀ a,
      (runRows parse (initState (runRows parse (initState db) rows).db) rows).db.visits a
        = (runRows parse (initState db) rows).db.visits a := by
    intro a
    rcases hcase : (rows.filter (touchesA parse a)).getLast? with _ | rl
    · have hempty : rows.filter (touchesA parse a) = [] :=
        List.getLast?_eq_none_iff.mp hcase
      have hframe := runRows_visits_frame parse rows
        (initState (runRows parse (initState db) rows).db) a ?_
      · exact hframe
      · intro r hr hpr ha
        have hmem : r ∈ rows.filter (touchesA parse a) :=
          List.mem_filter.mpr ⟨hr, by unfold touchesA; simp [hpr, ha]⟩
        rw [hempty] at hmem
        exact absurd hmem (List.not_mem_nil r)
    · obtain ⟨v1, vd1, hvd1, hD1, hf1, hr1⟩ :=
        runRows_visits_last parse rows (initState db) a rl hwf1 hcase
      obtain ⟨v2, vd2, hvd2, hD2, hf2, hr2⟩ :=
        runRows_visits_last parse rows (initState (runRows parse (initState db) rows).db) a rl
          hwfD hcase
      obtain ⟨x, y, hxy⟩ := runRows_visits_stable parse rows
        (initState (runRows parse (initState db) rows).db) a v1 hD1
      rw [hD2] at hxy
      injection hxy with hxy
      rw [hvd1] at hvd2
      injection hvd2 with hvd2
      have e1 : v2.id = v1.id := by rw [hxy]
      have e2 : v2.patient_id = v1.patient_id := by rw [hxy]
      have e3 : v2.visit_date = v1.visit_date := by rw [hf2, ← hvd2, ← hf1]
      have e4 : v2.reason = v1.reason := by rw [hr2, ← hr1]
      have hv21 : v2 = v1 := by
        cases v1; cases v2
        simp_all
      rw [hD2, hD1, hv21]
  obtain ⟨t1p, t1v⟩ := runRows_tallies parse rows (initState db) hwf1
  obtain ⟨t2p, t2v⟩ := runRows_tallies parse rows
    (initState (runRows parse (initState db) rows).db) hwfD
  have t1p' : (runRows parse (initState db) rows).patientsCreated
      + (runRows parse (initState db) rows).patientsUpdated
      = 0 + 0 + rows.countP (parsesB parse) := t1p
  have t1v' : (runRows parse (initState db) rows).visitsCreated
      + (runRows parse (initState db) rows).visitsUpdated
      = 0 + 0 + rows.countP (parsesB parse) := t1v
  have t2p' : (runRows parse (initState (runRows parse (initState db) rows).db) rows).patientsCreated
      + (runRows parse (initState (runRows parse (initState db) rows).db) rows).patientsUpdated
      = 0 + 0 + rows.countP (parsesB parse) := t2p
  have t2v' : (runRows parse (initState (runRows parse (initState db) rows).db) rows).visitsCreated
      + (runRows parse (initState (runRows parse (initState db) rows).db) rows).visitsUpdated
      = 0 + 0 + rows.countP (parsesB parse) := t2v
  refine ⟨?_, hC1', hC2', ?_, ?_⟩
  · apply Store.ext
    · exact hP'
    · funext i; exact hpers i
    · funext a; exact hvis a
    · exact hN1'
    · exact hN2'
  · omega
  · omega

/-- The store evolution of the visit half depends only on the incoming
store, not on tallies, errors or counters. -/
theorem visitPhase_db_only (st1 st2 : WfState) (pat : PatientT) (row : Row) (vd : Date)
    (h : st1.db = st2.db) :
    (visitPhase st1 pat row vd).db = (visitPhase st2 pat row vd).db := by
  rcases hv : st1.db.visits row.visit_account_number with _ | visit
  · rw [visitPhase_fresh st1 pat row vd hv, visitPhase_fresh st2 pat row vd (h ▸ hv)]
    rw [h]
  · rw [visitPhase_found st1 pat row vd visit hv, visitPhase_found st2 pat row vd visit (h ▸ hv)]
    rw [h]

/-- The store evolution of a step depends only on the incoming store. -/
theorem stepRow_db_only (parse : String → Option Date) (st1 st2 : WfState) (row : Row)
    (h : st1.db = st2.db) :
    (stepRow parse st1 row).db = (stepRow parse st2 row).db := by
  rcases hb : parse row.birth_date with _ | bd
  · rw [stepRow_parse_fail parse st1 row (Or.inl hb), stepRow_parse_fail parse st2 row (Or.inl hb)]
    exact h
  rcases hv : parse row.visit_date with _ | vd
  · rw [stepRow_parse_fail parse st1 row (Or.inr hv), stepRow_parse_fail parse st2 row (Or.inr hv)]
    exact h
  rcases hp : st1.db.patients row.mrn with _ | patient
  · rw [stepRow_fresh parse st1 row bd vd hb hv hp, stepRow_fresh parse st2 row bd vd hb hv (h ▸ hp)]
    rw [h]
    exact visitPhase_db_only _ _ _ _ _ rfl
  · rcases hq : st1.db.persons patient.id with _ | person
    · rw [stepRow_no_person parse st1 row bd vd patient hb hv hp hq,
        stepRow_no_person parse st2 row bd vd patient hb hv (h ▸ hp) (h ▸ hq)]
      exact h
    · rw [stepRow_found parse st1 row bd vd patient person hb hv hp hq,
        stepRow_found parse st2 row bd vd patient person hb hv (h ▸ hp) (h ▸ hq)]
      rw [h]
      exact visitPhase_db_only _ _ _ _ _ rfl

/-- The store after a run depends only on the incoming store. -/
theorem runRows_db_only (parse : String → Option Date) (rows : List Row) :
    ∀ st1 st2 : WfState, st1.db = st2.db →
      (runRows parse st1 rows).db = (runRows parse st2 rows).db := by
  induction rows with
  | nil => intro st1 st2 h; exact h
  | cons r L ih =>
    intro st1 st2 h
    rw [runRows_cons, runRows_cons]
    exact ih _ _ (stepRow_db_only parse st1 st2 r h)

/-- C2 (intended semantics of the per-row `except` handler): a row whose
dates do not parse is caught: the error list receives the message built from
the row's 1-based index (`processed_count`) and its MRN, the row leaves the
store untouched, and every remaining row is still attempted — the store
effect of the batch is that of the remaining rows alone, and the final
`processed_count` covers the bad row and the whole tail.  (As written, the
source cannot exhibit this: `errors.append(error_msg)` at
`src/worker/celery_app.py:164` is over-indented, an `IndentationError` that
prevents the module from importing at all.) -/
theorem row_error_isolation (parse : String → Option Date) (st : WfState) (bad : Row)
    (rest : List Row)
    (h : parse bad.birth_date = none ∨ parse bad.visit_date = none) :
    errMsg (st.processedCount + 1) bad.mrn dateErrText
        ∈ (runRows parse st (bad :: rest)).errors ∧
    (runRows parse st (bad :: rest)).db = (runRows parse st rest).db ∧
    (runRows parse st (bad :: rest)).processedCount = st.processedCount + 1 + rest.length := by
  rw [runRows_cons, stepRow_parse_fail parse st bad h]
  refine ⟨?_, ?_, ?_⟩
  · obtain ⟨l, hl⟩ := runRows_errors_mono parse rest
      { st with processedCount := st.processedCount + 1,
                errors := st.errors ++ [errMsg (st.processedCount + 1) bad.mrn dateErrText] }
    rw [hl]
    simp
  · exact runRows_db_only parse rest _ _ rfl
  · rw [runRows_processedCount]

/-- C3: the terminal result is `"failed"` exactly when the staged blob
cannot be retrieved, in which case no rows are processed and the store is
untouched; when the blob is retrievable the run always terminates
`"completed"` with every row attempted and the collected row-level errors
listed and counted, regardless of how many rows failed. -/
theorem workflow_status_failed_iff (parse : String → Option Date) (env : Env) (db : Store)
    (name : String) (removeOk : Bool) :
    ((process_csv_workflow parse env db name removeOk).2.2.status = "failed"
      ↔ env.s3 name = none) ∧
    (env.s3 name = none →
      (process_csv_workflow parse env db name removeOk).2.1 = db ∧
      (process_csv_workflow parse env db name removeOk).2.2.summary = none) ∧
    (∀ rows, env.s3 name = some rows →
      (process_csv_workflow parse env db name removeOk).2.2.status = "completed" ∧
      ∃ sm, (process_csv_workflow parse env db name removeOk).2.2.summary = some sm ∧
        sm.processed_records = rows.length ∧
        sm.total_records = rows.length ∧
        sm.errors = (runRows parse (initState db) rows).errors ∧
        sm.error_count = sm.errors.length) := by
  unfold process_csv_workflow
  rcases hs : env.s3 name with _ | rows0
  · refine ⟨⟨fun _ => rfl, fun _ => rfl⟩, fun _ => ⟨rfl, rfl⟩, ?_⟩
    intro rows hr
    exact absurd hr (by simp)
  · refine ⟨⟨?_, ?_⟩, ?_, ?_⟩
    · intro hcontra
      have hcf : "completed" = "failed" := hcontra
      exact absurd hcf (by decide)
    · intro hcontra
      exact absurd hcontra (by simp)
    · intro hcontra
      exact absurd hcontra (by simp)
    · intro rows hr
      injection hr with hr
      subst hr
      refine ⟨rfl, _, rfl, ?_, rfl, rfl, rfl⟩
      have hc : (runRows parse (initState db) rows0).processedCount = 0 + rows0.length :=
        runRows_processedCount parse rows0 (initState db)
      simpa using hc

/-- C4: on a fresh MRN, `create_patient` commits, as one unit, a Patient
under the next surrogate id together with a Person sharing that same id and
carrying the given demographics, returns the created Patient, and touches
nothing else; on an existing MRN the unique constraint fails the
transaction and neither entity is created (the store is not returned at
all). -/
theorem create_patient_with_person_spec (db : Store) (mrn fn ln : String) (bd : Date) :
    (db.patients mrn = none →
      ∃ db', create_patient db mrn fn ln bd = .ok (db', ⟨db.nextPatientId, mrn⟩) ∧
        db'.patients mrn = some ⟨db.nextPatientId, mrn⟩ ∧
        db'.persons db.nextPatientId = some ⟨fn, ln, bd⟩ ∧
        (∀ m, m ≠ mrn → db'.patients m = db.patients m) ∧
        (∀ i, i ≠ db.nextPatientId → db'.persons i = db.persons i) ∧
        db'.visits = db.visits ∧
        db'.nextPatientId = db.nextPatientId + 1 ∧
        db'.nextVisitId = db.nextVisitId) ∧
    ((db.patients mrn).isSome → ∃ e, create_patient db mrn fn ln bd = .error e) := by
  constructor
  · intro h
    rw [create_patient_of_none db mrn fn ln bd h]
    refine ⟨_, rfl, by simp, by simp, ?_, ?_, rfl, rfl, rfl⟩
    · intro m hm
      simp [hm]
    · intro i hi
      simp [hi]
  · intro h
    unfold create_patient
    simp only [h]
    exact ⟨_, rfl⟩

/-- The counterexample for C5 as stated: `update_person` does not return a
boolean — its Python return value is `None` even when a field did change
(the `updated` flag exists but is internal only). -/
theorem update_person_returns_none_counterexample :
    ((update_person demoStore ⟨1, "M1"⟩ "Janet" "Doe" ⟨1980, 1, 1⟩).map
        (fun t => t.2.1) = some true) ∧
    ((update_person demoStore ⟨1, "M1"⟩ "Janet" "Doe" ⟨1980, 1, 1⟩).map
        (fun t => t.2.2) = some PyRet.pyNone) ∧
    PyRet.pyNone ≠ PyRet.bool true := by
  refine ⟨rfl, rfl, by decide⟩

/-- C5 amended: both update operations are field-wise compare-and-set
against the stored row, persist only when at least one field differs (the
store is untouched when every field matches), and track the change in an
internal flag; but neither returns that flag to the caller —
`update_person` returns `None` and `update_visit` returns the visit
object. -/
theorem update_ops_compare_and_set (db : Store) (patient : PatientT) (fn ln : String)
    (bd : Date) (person : PersonT) (acct : String) (visit : VisitT) (vd : Date) (rs : String)
    (hq : db.persons patient.id = some person)
    (hva : db.visits acct = some visit) :
    (∃ db' u, update_person db patient fn ln bd = some (db', u, PyRet.pyNone) ∧
      (u = true ↔ ¬(person.first_name = fn ∧ person.last_name = ln ∧ person.birth_date = bd)) ∧
      (u = false → db' = db) ∧
      (∀ i, db'.persons i = if i = patient.id then some ⟨fn, ln, bd⟩ else db.persons i) ∧
      db'.patients = db.patients ∧ db'.visits = db.visits ∧
      db'.nextPatientId = db.nextPatientId ∧ db'.nextVisitId = db.nextVisitId) ∧
    (∃ db' u, update_visit db acct visit vd rs
        = (db', u, PyRet.visit ⟨visit.id, visit.patient_id, vd, rs⟩) ∧
      (u = true ↔ ¬(visit.visit_date = vd ∧ visit.reason = rs)) ∧
      (u = false → db' = db) ∧
      (∀ a, db'.visits a = if a = acct then
        some ⟨visit.id, visit.patient_id, vd, rs⟩ else db.visits a) ∧
      db'.patients = db.patients ∧ db'.persons = db.persons ∧
      db'.nextPatientId = db.nextPatientId ∧ db'.nextVisitId = db.nextVisitId) := by
  constructor
  · rw [update_person_shape db patient fn ln bd person hq]
    refine ⟨_, _, rfl, ?_, ?_, ?_, ?_, ?_, ?_, ?_⟩
    · rcases person with ⟨pf, pl, pb⟩
      simp [PersonT.mk.injEq]
      tauto
    · intro hu
      rw [decide_eq_false_iff_not, not_not] at hu
      rw [if_pos hu]
    · intro i
      split
      · next hsame =>
        by_cases hi : i = patient.id
        · rw [if_pos hi, hi, hq, hsame]
        · rw [if_neg hi]
      · rfl
    · split <;> rfl
    · split <;> rfl
    · split <;> rfl
    · split <;> rfl
  · rw [update_visit_shape db acct visit vd rs]
    refine ⟨_, _, rfl, ?_, ?_, ?_, ?_, ?_, ?_, ?_⟩
    · simp
      tauto
    · intro hu
      rw [decide_eq_false_iff_not, not_not] at hu
      rw [if_pos hu]
    · intro a
      split
      · next hsame =>
        by_cases ha : a = acct
        · rw [if_pos ha, ha, hva, ← hsame.1, ← hsame.2]
        · rw [if_neg ha]
      · rfl
    · split <;> rfl
    · split <;> rfl
    · split <;> rfl
    · split <;> rfl

/-- C6: a parseable row whose MRN already exists is always classified as a
patient update — `patients_updated` gains exactly one and
`patients_created` is unchanged — even when every incoming field equals the
stored Person, in which case no patient or person row is written at all;
the workflow result carries only the created/updated tallies, with no third
"unchanged" tally. -/
theorem existing_mrn_counts_as_update (parse : String → Option Date) (st : WfState)
    (row : Row) (bd vd : Date) (patient : PatientT) (person : PersonT)
    (hb : parse row.birth_date = some bd) (hv : parse row.visit_date = some vd)
    (hp : st.db.patients row.mrn = some patient)
    (hq : st.db.persons patient.id = some person) :
    (stepRow parse st row).patientsUpdated = st.patientsUpdated + 1 ∧
    (stepRow parse st row).patientsCreated = st.patientsCreated ∧
    (person = ⟨row.first_name, row.last_name, bd⟩ →
      (stepRow parse st row).db.persons = st.db.persons ∧
      (stepRow parse st row).db.patients = st.db.patients) := by
  rw [stepRow_found parse st row bd vd patient person hb hv hp hq]
  refine ⟨?_, ?_, ?_⟩
  · rw [(visitPhase_frame _ _ _ _).2.2.2.2.1]
  · rw [(visitPhase_frame _ _ _ _).2.2.2.1]
  · intro hsame
    constructor
    · rw [(visitPhase_frame _ _ _ _).2.1]
      rw [if_pos hsame]
    · rw [(visitPhase_frame _ _ _ _).1]
      rw [if_pos hsame]

/-- C10: `update_visit` mutates at most the date and reason: the returned
visit keeps its surrogate id and owning `patient_id`, rows at other account
numbers and the whole patient side of the store are untouched; lifted to
the workflow, reconciling any row against a store where the row's account
number already belongs to some visit leaves that visit's id and owner
unchanged, even when the row's MRN resolves to a different patient. -/
theorem update_visit_frame_spec (db : Store) (acct : String) (visit : VisitT) (vd : Date)
    (rs : String) :
    ((update_visit db acct visit vd rs).2.2
      = PyRet.visit ⟨visit.id, visit.patient_id, vd, rs⟩) ∧
    (∀ a, a ≠ acct → (update_visit db acct visit vd rs).1.visits a = db.visits a) ∧
    (update_visit db acct visit vd rs).1.patients = db.patients ∧
    (update_visit db acct visit vd rs).1.persons = db.persons ∧
    (update_visit db acct visit vd rs).1.nextPatientId = db.nextPatientId ∧
    (update_visit db acct visit vd rs).1.nextVisitId = db.nextVisitId ∧
    (∀ (parse : String → Option Date) (st : WfState) (row : Row) (v : VisitT),
      st.db.visits row.visit_account_number = some v →
      ∃ x y, (stepRow parse st row).db.visits row.visit_account_number
        = some ⟨v.id, v.patient_id, x, y⟩) := by
  rw [update_visit_shape db acct visit vd rs]
  refine ⟨rfl, ?_, ?_, ?_, ?_, ?_, ?_⟩
  · intro a ha
    split
    · rfl
    · simp [ha]
  · split <;> rfl
  · split <;> rfl
  · split <;> rfl
  · split <;> rfl
  · intro parse st row v hv
    exact stepRow_visits_stable parse st row _ v hv

/-- The counterexample for C7 as stated: a workflow run that completes does
not delete the staged blob — after completion the blob is still present in
object storage (S3Service has no delete operation at all; cleanup removes
only the worker's local temporary download). -/
theorem staged_blob_not_deleted_counterexample :
    (process_csv_workflow parseTable demoEnv emptyStore "b.csv" true).2.2.status
      = "completed" ∧
    (process_csv_workflow parseTable demoEnv emptyStore "b.csv" true).1.s3 "b.csv"
      = some [rowJane] := by
  exact ⟨rfl, rfl⟩

/-- C7 amended: cleanup after a completed run is confined to the worker's
local download directory: the staged blob in object storage is never
deleted; removing the local file `downloaded_<name>` is best-effort — when
`os.remove` fails the file stays, only a warning is logged, and the store
and terminal result are identical either way. -/
theorem workflow_cleanup_local_only (parse : String → Option Date) (env : Env) (db : Store)
    (name : String) (rows : List Row) (hs : env.s3 name = some rows) :
    (∀ rm, (process_csv_workflow parse env db name rm).1.s3 = env.s3) ∧
    ((process_csv_workflow parse env db name true).1.localFiles ("downloaded_" ++ name)
      = none) ∧
    ((process_csv_workflow parse env db name false).1.localFiles ("downloaded_" ++ name)
      = some rows) ∧
    ((process_csv_workflow parse env db name true).2
      = (process_csv_workflow parse env db name false).2) := by
  unfold process_csv_workflow
  rw [hs]
  refine ⟨?_, ?_, ?_, rfl⟩
  · intro rm
    cases rm <;> rfl
  · simp
  · simp

/-- Unfolding equation of `likeMatch` on an empty pattern. -/
theorem likeMatch_nil (s : List Char) : likeMatch [] s = s.isEmpty := by
  rw [likeMatch]

/-- Unfolding equation of `likeMatch` on a nonempty pattern. -/
theorem likeMatch_cons (c : Char) (p s : List Char) :
    likeMatch (c :: p) s =
      (if c = '%' then
        likeMatch p s || (if s.isEmpty then false else likeMatch (c :: p) s.tail)
      else if c = '_' then
        if s.isEmpty then false else likeMatch p s.tail
      else if c = '\\' then
        if p.isEmpty then false
        else if s.isEmpty then false
        else (s.headD c == p.headD c) && likeMatch p.tail s.tail
      else
        if s.isEmpty then false else (s.headD c == c) && likeMatch p s.tail) := by
  rw [likeMatch]

/-- The pattern `%` matches every text. -/
theorem likeMatch_pct (t : List Char) : likeMatch ['%'] t = true := by
  induction t with
  | nil => rw [likeMatch_cons]; simp [likeMatch_nil]
  | cons a t' ih => rw [likeMatch_cons]; simp [ih]

/-- Prepending `%` to a pattern that matches everything matches
everything. -/
theorem likeMatch_pct_cons (p : List Char) (hp : ∀ t, likeMatch p t = true)
    (t : List Char) : likeMatch ('%' :: p) t = true := by
  rw [likeMatch_cons]
  simp [hp]

/-- The pattern `%%` (an empty filter wrapped in percents) matches every
text, exactly as the skipped truthiness branch does. -/
theorem likeMatch_pct_pct (t : List Char) : likeMatch ['%', '%'] t = true :=
  likeMatch_pct_cons ['%'] likeMatch_pct t

/-- `%%%` (the filter string `%` wrapped in percents) matches every text:
a `%` typed into the filter matches all rows. -/
theorem likeMatch_pct3 (t : List Char) : likeMatch ['%', '%', '%'] t = true :=
  likeMatch_pct_cons ['%', '%'] likeMatch_pct_pct t

/-- Char `==` is symmetric. -/
theorem charBeq_comm (a b : Char) : (a == b) = (b == a) := by
  by_cases h : a = b
  · subst h; rfl
  · rw [beq_eq_false_iff_ne.mpr h, beq_eq_false_iff_ne.mpr (Ne.symm h)]

/-- A wildcard-free pattern followed by `%` matches exactly the texts it is
a prefix of. -/
theorem likeMatch_lit (p : List Char)
    (hp : ∀ c ∈ p, c ≠ '%' ∧ c ≠ '_' ∧ c ≠ '\\') (s : List Char) :
    likeMatch (p ++ ['%']) s = hasPrefixL p s := by
  induction p generalizing s with
  | nil => simpa [hasPrefixL] using likeMatch_pct s
  | cons c p' ih =>
    obtain ⟨h1, h2, h3⟩ := hp c (List.mem_cons_self c p')
    rw [List.cons_append, likeMatch_cons, if_neg h1, if_neg h2, if_neg h3]
    cases s with
    | nil => simp [hasPrefixL]
    | cons a s' =>
      simp only [List.isEmpty_cons, List.headD_cons, List.tail_cons, if_neg Bool.false_ne_true]
      rw [ih (fun d hd => hp d (List.mem_cons_of_mem c hd)) s']
      show (a == c && hasPrefixL p' s') = hasPrefixL (c :: p') (a :: s')
      rw [charBeq_comm]
      rfl

/-- A wildcard-free pattern wrapped in `%…%` matches exactly the texts
containing it: the `f"%{pat}%"` ILIKE pattern degenerates to a substring
test when the filter has no metacharacters. -/
theorem likeMatch_contains (p : List Char)
    (hp : ∀ c ∈ p, c ≠ '%' ∧ c ≠ '_' ∧ c ≠ '\\') (s : List Char) :
    likeMatch ('%' :: (p ++ ['%'])) s = hasInfixL p s := by
  induction s with
  | nil =>
    rw [likeMatch_cons, if_pos rfl]
    simp [likeMatch_lit p hp, hasInfixL]
  | cons a s' ih =>
    rw [likeMatch_cons, if_pos rfl]
    simp only [List.isEmpty_cons, List.tail_cons, if_neg Bool.false_ne_true]
    rw [likeMatch_lit p hp, ih]
    show (hasPrefixL p (a :: s') || hasInfixL p s') = hasInfixL p (a :: s')
    rfl

/-- For a filter string without LIKE metacharacters, `ilike` is exactly the
case-insensitive substring test. -/
theorem ilike_substring (field pat : String)
    (hp : ∀ c ∈ toLowerL pat.data, c ≠ '%' ∧ c ≠ '_' ∧ c ≠ '\\') :
    ilike field pat = hasInfixL (toLowerL pat.data) (toLowerL field.data) := by
  show likeMatch (toLowerL ('%' :: (pat.data ++ ['%']))) (toLowerL field.data) = _
  have h : toLowerL ('%' :: (pat.data ++ ['%']))
      = '%' :: (toLowerL pat.data ++ ['%']) := by
    unfold toLowerL
    rw [List.map_cons, List.map_append]
    have h5 : Char.toLower '%' = '%' := by decide
    rw [h5]
    rfl
  rw [h]
  exact likeMatch_contains (toLowerL pat.data) hp (toLowerL field.data)

/-- One filter stage of `get_patients_paginated` equals the spec-side
always-match/substring-match filter. -/
theorem filter_stage (tbl : List PatientRow) (f : Option String)
    (proj : PatientRow → String) :
    (if truthy f then tbl.filter (fun p => ilike (proj p) (f.getD "")) else tbl)
      = tbl.filter (fun p => filterMatch f (proj p)) := by
  match f with
  | none =>
    simp [truthy, filterMatch]
  | some s =>
    by_cases hs : s = ""
    · subst hs
      have hm : ∀ p : PatientRow, filterMatch (some "") (proj p) = true := by
        intro p
        show ilike (proj p) "" = true
        exact likeMatch_pct_pct _
      rw [List.filter_congr (fun p _ => hm p), List.filter_true]
      have ht : truthy (some "") = false := rfl
      rw [ht]
      simp
    · have ht : truthy (some s) = true := by
        have he : s.isEmpty = false := by
          cases he : s.isEmpty
          · rfl
          · exact absurd ((String.isEmpty_iff s).mp he) hs
        show (!s.isEmpty) = true
        rw [he]
        rfl
      rw [if_pos ht]
      rfl

/-- `get_patients_paginated` in closed form: one AND-fused filter, then
drop/take paging, with the total taken before paging. -/
theorem get_patients_paginated_eq (tbl : List PatientRow) (page page_size : Nat)
    (mrn first_name last_name : Option String) :
    get_patients_paginated tbl page page_size mrn first_name last_name
      = (((tbl.filter (specKeep mrn first_name last_name)).drop
            ((page - 1) * page_size)).take page_size,
         (tbl.filter (specKeep mrn first_name last_name)).length) := by
  simp only [get_patients_paginated]
  rw [filter_stage tbl mrn (fun p => p.mrn)]
  rw [filter_stage _ first_name (fun p => p.first_name)]
  rw [filter_stage _ last_name (fun p => p.last_name)]
  rw [List.filter_filter, List.filter_filter]
  have hfuse : tbl.filter
      (fun a => filterMatch last_name a.last_name &&
        filterMatch first_name a.first_name && filterMatch mrn a.mrn)
      = tbl.filter (specKeep mrn first_name last_name) := by
    refine List.filter_congr ?_
    intro p _
    unfold specKeep
    cases h1 : filterMatch mrn p.mrn <;>
      cases h2 : filterMatch first_name p.first_name <;>
      cases h3 : filterMatch last_name p.last_name <;> simp [h1, h2, h3]
  rw [hfuse]

/-- C8 amended: `get_patients_paginated` filters with AND-combined
case-insensitive SQL LIKE containment matches (the filter string is
interpolated unescaped into `%…%`, so `%` and `_` inside it act as LIKE
wildcards and `\` as the escape character; a filter free of these
metacharacters is exactly a case-insensitive substring match, while e.g.
the filter `%` matches every row), counts the filtered (not paged) set,
pages with offset `(page-1)*pageSize` on 1-indexed pages, and preserves the
store's surrogate-id enumeration order; over 25 unfiltered patients with
pageSize 10, page 2 returns exactly 10 items with total 25 and the
remaining 5 arrive on page 3 (not on page 2 as the claim stated). -/
theorem get_patients_paginated_spec (tbl : List PatientRow) (page page_size : Nat)
    (mrn first_name last_name : Option String) :
    ((get_patients_paginated tbl page page_size mrn first_name last_name).2
      = (tbl.filter (specKeep mrn first_name last_name)).length) ∧
    ((get_patients_paginated tbl page page_size mrn first_name last_name).1
      = ((tbl.filter (specKeep mrn first_name last_name)).drop
          ((page - 1) * page_size)).take page_size) ∧
    (List.Pairwise (fun a b => a.id < b.id) tbl →
      List.Pairwise (fun a b => a.id < b.id)
        (get_patients_paginated tbl page page_size mrn first_name last_name).1) ∧
    (∀ field pat : String,
      (∀ c ∈ toLowerL pat.data, c ≠ '%' ∧ c ≠ '_' ∧ c ≠ '\\') →
      ilike field pat = hasInfixL (toLowerL pat.data) (toLowerL field.data)) ∧
    ((get_patients_paginated tblW 1 10 (some "%") none none).1 = tblW ∧
     hasInfixL (toLowerL ("%" : String).data)
       (toLowerL ("abc" : String).data) = false) ∧
    ((get_patients_paginated tbl25 2 10 none none none).1.length = 10 ∧
     (get_patients_paginated tbl25 2 10 none none none).2 = 25 ∧
     (get_patients_paginated tbl25 3 10 none none none).1.length = 5) := by
  rw [get_patients_paginated_eq]
  refine ⟨rfl, rfl, ?_, fun f p hp => ilike_substring f p hp, ⟨?_, by decide⟩,
    by decide, by decide, by decide⟩
  · intro hsorted
    exact ((hsorted.filter _).sublist (List.drop_sublist _ _)).sublist
      (List.take_sublist _ _)
  · have hall : ∀ p : PatientRow, specKeep (some "%") none none p = true := by
      intro p
      show (ilike p.mrn "%" && true && true) = true
      have h3 : toLowerL ('%' :: (("%" : String).data ++ ['%'])) = ['%', '%', '%'] := by
        decide
      show (likeMatch (toLowerL ('%' :: (("%" : String).data ++ ['%'])))
        (toLowerL p.mrn.data) && true && true) = true
      rw [h3, likeMatch_pct3]
      rfl
    rw [get_patients_paginated_eq, List.filter_congr (fun p _ => hall p),
      List.filter_true]
    rfl

/-- The counterexample for C8 as stated: page 2 of size 10 over 25
unfiltered patients returns 10 items, not 5 (items 11-20; the final 5 are
on page 3). -/
theorem pagination_page2_counterexample :
    (get_patients_paginated tbl25 2 10 none none none).1.length = 10 ∧
    ¬ (get_patients_paginated tbl25 2 10 none none none).1.length = 5 ∧
    (get_patients_paginated tbl25 2 10 none none none).2 = 25 := by
  decide

/-- Digit characters are never line terminators. -/
theorem dChar_ne_crlf (n : Nat) : dChar n ≠ '\r' ∧ dChar n ≠ '\n' := by
  rcases n with _ | _ | _ | _ | _ | _ | _ | _ | _ | n
  · exact ⟨by decide, by decide⟩
  · exact ⟨by decide, by decide⟩
  · exact ⟨by decide, by decide⟩
  · exact ⟨by decide, by decide⟩
  · exact ⟨by decide, by decide⟩
  · exact ⟨by decide, by decide⟩
  · exact ⟨by decide, by decide⟩
  · exact ⟨by decide, by decide⟩
  · exact ⟨by decide, by decide⟩
  · exact ⟨by show ('9' : Char) ≠ '\r'; decide, by show ('9' : Char) ≠ '\n'; decide⟩

/-- An ISO-formatted date contains no line terminators. -/
theorem isoformat_no_crlf (d : Date) (c : Char) (hc : c ∈ (Date.isoformat d).data) :
    c ≠ '\r' ∧ c ≠ '\n' := by
  simp [Date.isoformat, pad4, pad2] at hc
  rcases hc with h | h | h | h | h | h | h | h | h | h <;> subst h <;>
    first
      | exact dChar_ne_crlf _
      | exact ⟨by decide, by decide⟩

/-- Quote doubling only ever adds quote characters. -/
theorem escQ_mem (l : List Char) (c : Char) (hc : c ∈ escQ l) : c ∈ l ∨ c = '"' := by
  induction l with
  | nil => simp [escQ] at hc
  | cons x xs ih =>
    unfold escQ at hc
    split at hc
    · rcases List.mem_cons.mp hc with h | h
      · exact Or.inr h
      · rcases List.mem_cons.mp h with h | h
        · exact Or.inr h
        · rcases ih h with h | h
          · exact Or.inl (List.mem_cons_of_mem x h)
          · exact Or.inr h
    · rcases List.mem_cons.mp hc with h | h
      · exact Or.inl (h ▸ List.mem_cons_self x xs)
      · rcases ih h with h | h
        · exact Or.inl (List.mem_cons_of_mem x h)
        · exact Or.inr h

/-- Minimal quoting only ever adds quote characters. -/
theorem csvQuote_mem (s : String) (c : Char) (hc : c ∈ (csvQuote s).data) :
    c ∈ s.data ∨ c = '"' := by
  unfold csvQuote at hc
  split at hc
  · rcases List.mem_cons.mp hc with h | h
    · exact Or.inr h
    · rcases List.mem_append.mp h with h | h
      · exact escQ_mem s.data c h
      · rcases List.mem_cons.mp h with h | h
        · exact Or.inr h
        · simp at h
  · exact Or.inl hc

/-- A character of a joined line comes from one of the fields or is the
comma separator. -/
theorem joinComma_mem (ss : List String) (c : Char) (hc : c ∈ (joinComma ss).data) :
    (∃ x ∈ ss, c ∈ x.data) ∨ c = ',' := by
  induction ss with
  | nil => simp [joinComma] at hc
  | cons x xs ih =>
    cases xs with
    | nil =>
      exact Or.inl ⟨x, List.mem_cons_self x [], hc⟩
    | cons y ys =>
      unfold joinComma at hc
      rw [String.data_append, String.data_append] at hc
      rcases List.mem_append.mp hc with h | h
      · rcases List.mem_append.mp h with h | h
        · exact Or.inl ⟨x, List.mem_cons_self x (y :: ys), h⟩
        · rcases List.mem_cons.mp h with h | h
          · exact Or.inr h
          · simp at h
      · rcases ih h with ⟨z, hz, hcz⟩ | h
        · exact Or.inl ⟨z, List.mem_cons_of_mem x hz, hcz⟩
        · exact Or.inr h

/-- A CSV line built from CR-free fields is CR-free. -/
theorem csvRowLine_no_cr (fields : List String)
    (h : ∀ x ∈ fields, '\x0d' ∉ x.data) :
    ∀ c ∈ (csvRowLine fields).data, c ≠ '\r' := by
  intro c hc
  unfold csvRowLine at hc
  rcases joinComma_mem _ c hc with ⟨x, hx, hcx⟩ | h'
  · obtain ⟨y, hy, hxy⟩ := List.mem_map.mp hx
    subst hxy
    rcases csvQuote_mem y c hcx with h' | h'
    · intro hcr
      exact h y hy (hcr ▸ h')
    · subst h'; decide
  · subst h'; decide

/-- Splitting at CRLF recovers a CR-free line. -/
theorem splitCRLF_append (l : List Char) :
    ∀ rest : List Char, (∀ c ∈ l, c ≠ '\r') →
      splitCRLF (l ++ '\r' :: '\n' :: rest) = l :: splitCRLF rest := by
  induction l with
  | nil =>
    intro rest _
    show splitCRLF ('\r' :: '\n' :: rest) = [] :: splitCRLF rest
    rw [splitCRLF]
    rw [if_pos ⟨rfl, rfl⟩]
  | cons c l' ih =>
    intro rest h
    have hc : c ≠ '\r' := h c (List.mem_cons_self c l')
    cases l' with
    | nil =>
      show splitCRLF (c :: '\r' :: '\n' :: rest) = [c] :: splitCRLF rest
      have h2 : splitCRLF ('\r' :: '\n' :: rest) = [] :: splitCRLF rest := by
        rw [splitCRLF]
        rw [if_pos ⟨rfl, rfl⟩]
      rw [splitCRLF]
      rw [if_neg (fun hand => hc hand.1)]
      rw [h2]
    | cons c2 l'' =>
      show splitCRLF (c :: c2 :: (l'' ++ '\r' :: '\n' :: rest))
        = (c :: c2 :: l'') :: splitCRLF rest
      have h2 := ih rest (fun x hx => h x (List.mem_cons_of_mem c hx))
      rw [List.cons_append] at h2
      rw [splitCRLF]
      rw [if_neg (fun hand => hc hand.1)]
      rw [h2]

/-- The body of the staged file splits into one line per record in input
order, plus the empty tail after the final CRLF. -/
theorem csvBody_split (records : List VisitRecord)
    (h : ∀ r ∈ records, ∀ c ∈ (csvRowLine (recordFields r)).data, c ≠ '\r') :
    splitCRLF (csvBody records).data
      = records.map (fun r => (csvRowLine (recordFields r)).data) ++ [[]] := by
  induction records with
  | nil => rfl
  | cons r rest ih =>
    show splitCRLF ((csvRowLine (recordFields r) ++ "\r\n" ++ csvBody rest)).data = _
    have hdata : (csvRowLine (recordFields r) ++ "\r\n" ++ csvBody rest).data
        = (csvRowLine (recordFields r)).data ++ '\r' :: '\n' :: (csvBody rest).data := by
      rw [String.data_append, String.data_append]
      simp
    rw [hdata, splitCRLF_append _ _ (h r (List.mem_cons_self r rest))]
    rw [ih (fun r' hr' => h r' (List.mem_cons_of_mem r hr'))]
    simp

/-- C9: the staged CSV artifact consists of the fixed header line
`mrn,first_name,last_name,birth_date,visit_account_number,visit_date,reason`
followed by exactly one line per input record, in input order, each line
carrying the record's seven fields in that column order with both dates
serialized as zero-padded `YYYY-MM-DD` (`isoformat`); splitting the file at
its CRLF terminators recovers exactly these lines.  The hypothesis only
excludes carriage returns inside the free-text fields, where the csv
module's quoting would make the physical line structure diverge from the
logical rows. -/
theorem staged_csv_format (records : List VisitRecord)
    (hplain : ∀ r ∈ records, '\x0d' ∉ r.mrn.data ∧ '\x0d' ∉ r.first_name.data ∧
      '\x0d' ∉ r.last_name.data ∧ '\x0d' ∉ r.visit_account_number.data ∧
      '\x0d' ∉ r.reason.data) :
    splitCRLF (create_csv_from_records records).data
      = (csvRowLine CSV_HEADERS).data
        :: (records.map (fun r => (csvRowLine (recordFields r)).data) ++ [[]]) ∧
    csvRowLine CSV_HEADERS
      = "mrn,first_name,last_name,birth_date,visit_account_number,visit_date,reason" ∧
    Date.isoformat ⟨2024, 3, 1⟩ = "2024-03-01" ∧
    Date.isoformat ⟨1980, 1, 1⟩ = "1980-01-01" := by
  refine ⟨?_, by decide, by decide, by decide⟩
  show splitCRLF ((csvRowLine CSV_HEADERS ++ "\r\n" ++ csvBody records)).data = _
  have hdata : (csvRowLine CSV_HEADERS ++ "\r\n" ++ csvBody records).data
      = (csvRowLine CSV_HEADERS).data ++ '\r' :: '\n' :: (csvBody records).data := by
    rw [String.data_append, String.data_append]
    simp
  have hhdr : ∀ c ∈ (csvRowLine CSV_HEADERS).data, c ≠ '\r' := by decide
  rw [hdata, splitCRLF_append _ _ hhdr]
  congr 1
  refine csvBody_split records ?_
  intro r hr
  refine csvRowLine_no_cr (recordFields r) ?_
  intro x hx
  obtain ⟨h1, h2, h3, h4, h5⟩ := hplain r hr
  simp [recordFields] at hx
  rcases hx with hx | hx | hx | hx | hx | hx | hx <;> subst hx
  · exact h1
  · exact h2
  · exact h3
  · intro hmem
    exact (isoformat_no_crlf _ _ hmem).1 rfl
  · exact h4
  · intro hmem
    exact (isoformat_no_crlf _ _ hmem).1 rfl
  · exact h5

/-- Witness for C1 at a concrete input: one row replayed over an empty
store. -/
theorem replay_reconciliation_idempotent_witness :
    (runRows parseTable
        (initState (runRows parseTable (initState emptyStore) [rowJane]).db) [rowJane]).db
      = (runRows parseTable (initState emptyStore) [rowJane]).db ∧
    (runRows parseTable
        (initState (runRows parseTable (initState emptyStore) [rowJane]).db)
        [rowJane]).patientsCreated = 0 ∧
    (runRows parseTable
        (initState (runRows parseTable (initState emptyStore) [rowJane]).db)
        [rowJane]).visitsCreated = 0 := by
  have h := replay_reconciliation_idempotent parseTable emptyStore [rowJane]
    (fun m p hp => by simp [emptyStore] at hp)
  exact ⟨h.1, h.2.1, h.2.2.1⟩

/-- Witness for C2 at a concrete input: a bad-date row followed by a good
row. -/
theorem row_error_isolation_witness :
    errMsg 1 "M2" dateErrText
      ∈ (runRows parseTable (initState emptyStore) [rowBad, rowJane]).errors ∧
    (runRows parseTable (initState emptyStore) [rowBad, rowJane]).db
      = (runRows parseTable (initState emptyStore) [rowJane]).db ∧
    (runRows parseTable (initState emptyStore) [rowBad, rowJane]).processedCount = 2 := by
  have h := row_error_isolation parseTable (initState emptyStore) rowBad [rowJane] (Or.inl rfl)
  exact ⟨h.1, h.2.1, h.2.2⟩

/-- Witness for C3 at concrete inputs: a missing blob fails, a present blob
completes. -/
theorem workflow_status_failed_iff_witness :
    (process_csv_workflow parseTable demoEnv emptyStore "missing.csv" true).2.2.status
      = "failed" ∧
    (process_csv_workflow parseTable demoEnv emptyStore "b.csv" true).2.2.status
      = "completed" := by
  constructor
  · exact (workflow_status_failed_iff parseTable demoEnv emptyStore "missing.csv" true).1.mpr
      rfl
  · exact ((workflow_status_failed_iff parseTable demoEnv emptyStore "b.csv" true).2.2
      [rowJane] rfl).1

/-- Witness for C4 at concrete inputs: creation on an empty store, conflict
on an occupied MRN. -/
theorem create_patient_with_person_spec_witness :
    (∃ db', create_patient emptyStore "M1" "Jane" "Doe" ⟨1980, 1, 1⟩ = .ok (db', ⟨1, "M1"⟩) ∧
      db'.patients "M1" = some ⟨1, "M1"⟩ ∧
      db'.persons 1 = some ⟨"Jane", "Doe", ⟨1980, 1, 1⟩⟩) ∧
    (∃ e, create_patient demoStore "M1" "June" "Poe" ⟨1981, 2, 2⟩ = .error e) := by
  constructor
  · obtain ⟨db', h1, h2, h3, _⟩ :=
      (create_patient_with_person_spec emptyStore "M1" "Jane" "Doe" ⟨1980, 1, 1⟩).1 rfl
    exact ⟨db', h1, h2, h3⟩
  · exact (create_patient_with_person_spec demoStore "M1" "June" "Poe" ⟨1981, 2, 2⟩).2 rfl

/-- Witness for the amended C5 at concrete inputs. -/
theorem update_ops_compare_and_set_witness :
    (∃ db' u, update_person demoStore ⟨1, "M1"⟩ "Janet" "Doe" ⟨1980, 1, 1⟩
      = some (db', u, PyRet.pyNone)) ∧
    (∃ db' u, update_visit demoStore "V1" ⟨1, 1, ⟨2024, 3, 1⟩, "checkup"⟩ ⟨2024, 4, 1⟩
        "followup"
      = (db', u, PyRet.visit ⟨1, 1, ⟨2024, 4, 1⟩, "followup"⟩)) := by
  have h := update_ops_compare_and_set demoStore ⟨1, "M1"⟩ "Janet" "Doe" ⟨1980, 1, 1⟩
    ⟨"Jane", "Doe", ⟨1980, 1, 1⟩⟩ "V1" ⟨1, 1, ⟨2024, 3, 1⟩, "checkup"⟩ ⟨2024, 4, 1⟩
    "followup" rfl rfl
  constructor
  · obtain ⟨db', u, h1, _⟩ := h.1
    exact ⟨db', u, h1⟩
  · obtain ⟨db', u, h1, _⟩ := h.2
    exact ⟨db', u, h1⟩

/-- Witness for C6 at a concrete input: re-ingesting the identical row of an
existing patient. -/
theorem existing_mrn_counts_as_update_witness :
    (stepRow parseTable (initState demoStore) rowJane).patientsUpdated = 1 ∧
    (stepRow parseTable (initState demoStore) rowJane).patientsCreated = 0 ∧
    (stepRow parseTable (initState demoStore) rowJane).db.persons = demoStore.persons := by
  have h := existing_mrn_counts_as_update parseTable (initState demoStore) rowJane
    ⟨1980, 1, 1⟩ ⟨2024, 3, 1⟩ ⟨1, "M1"⟩ ⟨"Jane", "Doe", ⟨1980, 1, 1⟩⟩ rfl rfl rfl rfl
  exact ⟨h.1, h.2.1, (h.2.2 rfl).1⟩

/-- Witness for the amended C7 at a concrete input. -/
theorem workflow_cleanup_local_only_witness :
    (process_csv_workflow parseTable demoEnv emptyStore "b.csv" true).1.s3 = demoEnv.s3 ∧
    (process_csv_workflow parseTable demoEnv emptyStore "b.csv" true).1.localFiles
      ("downloaded_" ++ "b.csv") = none ∧
    (process_csv_workflow parseTable demoEnv emptyStore "b.csv" false).1.localFiles
      ("downloaded_" ++ "b.csv") = some [rowJane] := by
  have h := workflow_cleanup_local_only parseTable demoEnv emptyStore "b.csv" [rowJane] rfl
  exact ⟨h.1 true, h.2.1, h.2.2.1⟩

/-- Witness for the amended C8 at a concrete input, discharging the
sortedness hypothesis on the 25-patient table. -/
theorem get_patients_paginated_spec_witness :
    (get_patients_paginated tbl25 2 10 none none none).2
      = (tbl25.filter (specKeep none none none)).length ∧
    List.Pairwise (fun a b => a.id < b.id)
      (get_patients_paginated tbl25 2 10 none none none).1 ∧
    ilike "Jane" "an"
      = hasInfixL (toLowerL ("an" : String).data) (toLowerL ("Jane" : String).data) ∧
    (get_patients_paginated tblW 1 10 (some "%") none none).1 = tblW := by
  have h := get_patients_paginated_spec tbl25 2 10 none none none
  exact ⟨h.1, h.2.2.1 (by decide), h.2.2.2.1 "Jane" "an" (by decide),
    h.2.2.2.2.1.1⟩

/-- Witness for C9 at a concrete one-record payload. -/
theorem staged_csv_format_witness :
    splitCRLF (create_csv_from_records recsDemo).data
      = (csvRowLine CSV_HEADERS).data
        :: (recsDemo.map (fun r => (csvRowLine (recordFields r)).data) ++ [[]]) ∧
    csvRowLine CSV_HEADERS
      = "mrn,first_name,last_name,birth_date,visit_account_number,visit_date,reason" := by
  have h := staged_csv_format recsDemo (by decide)
  exact ⟨h.1, h.2.1⟩

/-- Witness for C10 at concrete inputs. -/
theorem update_visit_frame_spec_witness :
    (update_visit demoStore "V1" ⟨1, 1, ⟨2024, 3, 1⟩, "checkup"⟩ ⟨2024, 4, 1⟩
        "followup").2.2
      = PyRet.visit ⟨1, 1, ⟨2024, 4, 1⟩, "followup"⟩ ∧
    (update_visit demoStore "V1" ⟨1, 1, ⟨2024, 3, 1⟩, "checkup"⟩ ⟨2024, 4, 1⟩
        "followup").1.visits "V2" = demoStore.visits "V2" ∧
    (∃ x y, (stepRow parseTable (initState demoStore) rowJane).db.visits "V1"
      = some ⟨1, 1, x, y⟩) := by
  have h := update_visit_frame_spec demoStore "V1" ⟨1, 1, ⟨2024, 3, 1⟩, "checkup"⟩
    ⟨2024, 4, 1⟩ "followup"
  refine ⟨h.1, h.2.1 "V2" (by decide), ?_⟩
  exact h.2.2.2.2.2.2 parseTable (initState demoStore) rowJane
    ⟨1, 1, ⟨2024, 3, 1⟩, "checkup"⟩ rfl

end HDIP
